import Mathlib

/-!
Blockly Java generator (`generators/java.js`): a shallow embedding

The generator object `Blockly.Java` is modelled by the record `JavaGen`; every
method of the source that reads or writes `this` becomes a function taking the
record and returning the new record together with the JavaScript result.
Operations that dereference a member which may still be `undefined` return
`Except`.  Members of Blockly that live outside `generators/java.js`
(`Blockly.Names`, `Blockly.Blocks`, the base `Blockly.Generator`) are parameters.
-/

namespace BlocklyJava

/-! ## JavaScript strings -/

/-- UTF-16 code units of one character: JavaScript strings are sequences of code units. -/
def utf16Units (c : Char) : List Nat :=
  if c.toNat < 0x10000 then [c.toNat]
  else [0xD800 + (c.toNat - 0x10000) / 0x400, 0xDC00 + (c.toNat - 0x10000) % 0x400]

/-- The code units of a string. -/
def codeUnits (s : String) : List Nat :=
  (s.data.map utf16Units).flatten

/-- Lexicographic comparison of code-unit sequences, the order of JavaScript's `<=` on strings. -/
def unitsLe : List Nat → List Nat → Bool
  | [], _ => true
  | _ :: _, [] => false
  | a :: as, b :: bs => if a < b then true else if b < a then false else unitsLe as bs

/-- JavaScript string order `a <= b`, used by `Array.prototype.sort` without a comparator and by
`goog.array.defaultCompare`. -/
def jsLe (a b : String) : Prop :=
  unitsLe (codeUnits a) (codeUnits b) = true

instance jsLe_decidable : DecidableRel jsLe :=
  fun a b => inferInstanceAs (Decidable (unitsLe (codeUnits a) (codeUnits b) = true))

/-- Result of `names.sort()` on an array of strings. -/
def jsSort (names : List String) : List String :=
  names.insertionSort jsLe

/-- Text of `arr.join(sep)` for an array of strings. -/
def jsJoin (sep : String) : List String → String
  | [] => ""
  | [a] => a
  | a :: b :: rest => a ++ sep ++ jsJoin sep (b :: rest)

/-- Pieces of `s.split(sep)` for a one-character separator, on the character list. -/
def splitChars (sep : Char) : List Char → List (List Char)
  | [] => [[]]
  | c :: rest =>
    if c = sep then [] :: splitChars sep rest
    else
      match splitChars sep rest with
      | [] => [[c]]
      | p :: ps => (c :: p) :: ps

/-- Result of `s.split(sep, limit)` for a one-character separator: the first `limit` pieces. -/
def jsSplit (s : String) (sep : Char) (limit : Nat) : List String :=
  ((splitChars sep s.data).take limit).map String.mk

/-- Effect of `.replace(/\n\n+/g, '\n\n')` on the character list: every maximal run of two or
more newlines becomes two newlines.  A newline is dropped exactly when two more follow it. -/
def collapseNewlines : List Char → List Char
  | [] => []
  | c :: rest =>
    if c = '\n' ∧ rest.take 2 = ['\n', '\n'] then collapseNewlines rest
    else c :: collapseNewlines rest

/-- Effect of `.replace(/\n*$/, '\n\n\n')` on the character list.  The pattern is tried at each
position from the left; it matches at the first position from which only newlines remain, and
that (possibly empty) trailing run is replaced. -/
def replaceTrailingNewlines : List Char → List Char
  | [] => ['\n', '\n', '\n']
  | c :: rest =>
    if (c :: rest).all (fun x => x = '\n') then ['\n', '\n', '\n']
    else c :: replaceTrailingNewlines rest

/-! ## JavaScript objects used as dictionaries -/

/-- Digits of a canonical array index: `"0"`, or a digit string without leading zero whose value
is below `2^32 - 1`. -/
def isArrayIndex (k : String) : Bool :=
  k.data ≠ [] && k.data.all Char.isDigit && (k.data.head? != some '0' || k.data.length == 1)
    && decide (k.data.foldl (fun n c => 10 * n + (c.toNat - 48)) 0 < 2 ^ 32 - 1)

/-- Numeric value of an array-index key. -/
def arrayIndexValue (k : String) : Nat :=
  k.data.foldl (fun n c => 10 * n + (c.toNat - 48)) 0

/-- Property enumeration order of an ordinary object (`for ... in`, `Object.keys`): array-index
keys in ascending numeric order, then the other keys in creation order. -/
def enumerationOrder (created : List String) : List String :=
  (created.filter isArrayIndex).insertionSort (fun a b => arrayIndexValue a ≤ arrayIndexValue b)
    ++ created.filter (fun k => !isArrayIndex k)

/-- Assignment `obj[k] = v` on the list of own properties: an existing property keeps its place,
a new one is created last. -/
def setEntry {α : Type} (k : String) (v : α) : List (String × α) → List (String × α)
  | [] => [(k, v)]
  | e :: rest => if e.1 = k then (k, v) :: rest else e :: setEntry k v rest

/-- An object created by `Object.create(null)`: own properties only, in creation order. -/
structure Dict (α : Type) where
  entries : List (String × α)
  nodup : (entries.map Prod.fst).Nodup

namespace Dict

variable {α : Type}

/-- The object `Object.create(null)`. -/
def empty : Dict α := ⟨[], List.nodup_nil⟩

/-- The assignment `obj[k] = v`. -/
def set (d : Dict α) (k : String) (v : α) : Dict α :=
  ⟨setEntry k v d.entries, by
    have key : ∀ l : List (String × α), (l.map Prod.fst).Nodup →
        ((setEntry k v l).map Prod.fst).Nodup ∧
          ∀ x, x ∈ (setEntry k v l).map Prod.fst → x = k ∨ x ∈ l.map Prod.fst := by
      intro l
      induction l with
      | nil => intro _; simp [setEntry]
      | cons e rest ih =>
        intro h
        rw [List.map_cons, List.nodup_cons] at h
        by_cases hk : e.1 = k
        · simp only [setEntry, hk, if_true, List.map_cons, List.nodup_cons]
          refine ⟨⟨hk ▸ h.1, h.2⟩, ?_⟩
          intro x hx
          simp only [List.mem_cons] at hx ⊢
          rcases hx with hx | hx
          · exact Or.inl hx
          · exact Or.inr (Or.inr hx)
        · have ih2 := ih h.2
          simp only [setEntry, hk, if_false, List.map_cons, List.nodup_cons]
          refine ⟨⟨?_, ih2.1⟩, ?_⟩
          · intro hmem
            rcases ih2.2 _ hmem with h1 | h1
            · exact hk h1
            · exact h.1 h1
          · intro x hx
            simp only [List.mem_cons] at hx ⊢
            rcases hx with hx | hx
            · exact Or.inr (Or.inl hx)
            · rcases ih2.2 _ hx with h1 | h1
              · exact Or.inl h1
              · exact Or.inr (Or.inr h1)
    exact (key d.entries d.nodup).1⟩

/-- The read `obj[k]`; `none` stands for `undefined`. -/
def get? (d : Dict α) (k : String) : Option α :=
  (d.entries.find? (fun e => e.1 = k)).map Prod.snd

/-- Keys visited by `for (var k in obj)`. -/
def keys (d : Dict α) : List String :=
  enumerationOrder (d.entries.map Prod.fst)

/-- Values in enumeration order, as collected by `goog.object.getValues`. -/
def values (d : Dict α) : List α :=
  d.keys.filterMap d.get?

end Dict

/-! ## Values and collaborators outside `generators/java.js` -/

/-- JavaScript values that can reach the type members of the generator.  An `object` is a
built-in function or object, carried with the text of its string conversion. -/
inductive JSVal where
  | undefined
  | null
  | str (s : String)
  | num (n : Nat)
  | object (text : String)
deriving DecidableEq, Repr

namespace JSVal

/-- Truthiness, as tested by `!type`. -/
def truthy : JSVal → Bool
  | undefined => false
  | null => false
  | str s => s != ""
  | num n => n != 0
  | object _ => true

/-- String conversion, as performed by `'text' + value`. -/
def toText : JSVal → String
  | undefined => "undefined"
  | null => "null"
  | str s => s
  | num n => toString n
  | object t => t

end JSVal

/-- What the generator reads from outside `generators/java.js`: the JavaScript host (inherited
properties of `Object.prototype` and of an empty array), the block table `Blockly.Blocks`, and the
name registry `Blockly.Names` over its state `DB`. -/
structure Env (DB : Type) where
  /-- Value of `obj[k]` for a property that `obj = \x7b\x7d` does not own (`undefined` when
  `Object.prototype` has no such property). -/
  objectProto : String → JSVal
  /-- Value of `[][k]` on an empty array: `length`, inherited members, else `undefined`. -/
  emptyArray : String → JSVal
  /-- Value of `Blockly.Blocks[type] && Blockly.Blocks[type].GBPClass` when it is a string. -/
  gbpClass : JSVal → Option String
  /-- Constructor `new Blockly.Names(reservedWords)`. -/
  newNames : String → DB
  /-- Method `Blockly.Names.prototype.reset`. -/
  resetNames : DB → DB
  /-- Method `Blockly.Names.prototype.getName(name, type)`: identifier and updated registry. -/
  getName : DB → String → String → String × DB
  /-- Constant `Blockly.Variables.NAME_TYPE`. -/
  nameType : String

/-- Modelled from the spec: the workspace as far as `Blockly.Variables.allVariables` (outside
`generators/java.js`) reads it, a list of Variable Bindings, each a (name, type-tag) pair. -/
structure Workspace where
  bindings : List (String × JSVal)

/-- Modelled from the spec: `Blockly.Variables.allVariables(workspace)`, the names of the
workspace's variable bindings. -/
def allVariables (ws : Workspace) : List String :=
  ws.bindings.map Prod.fst

/-- A deferred declaration: the text of a function body, or a zero-argument producer of it. -/
inductive Def where
  | text (s : String)
  | producer (f : Unit → String)

/-- The member `blocklyTypes_`, which never owns a property: the object literal it starts as, or
the empty array that `init` assigns. -/
inductive BlocklyTypes where
  | emptyObject
  | emptyArray
deriving DecidableEq, Repr

/-! ## The generator object -/

/-- State of `Blockly.Java`.  `none` stands for a member that is `undefined`. -/
structure JavaGen (DB : Type) where
  RESERVED_WORDS_ : String
  POSTFIX : String
  EXTRAINDENT : String
  /-- Own properties of the object literal `variableTypes_`. -/
  variableTypes_ : Dict String
  blocklyTypes_ : BlocklyTypes
  AppName_ : String
  Package_ : String
  Baseclass_ : String
  needImports_ : List String
  ExtraImports_ : Option (List String)
  INLINEVARCLASS : Bool
  classes_ : Dict String
  /-- Initializer of each global; `none` stands for `null` or `undefined`. -/
  globals_ : Dict (Option String)
  definitions_ : Option (Dict Def)
  functionNames_ : Option (Dict String)
  imports_ : Option (Dict String)
  variableDB_ : Option DB

variable {DB : Type}

/-- The read `obj[k]` on an object literal with own string properties: own property first, then
`Object.prototype`. -/
def protoGet (env : Env DB) (own : Dict String) (k : String) : JSVal :=
  match own.get? k with
  | some s => JSVal.str s
  | none => env.objectProto k

/-- The assignment `obj[k] = v` of a string on an object literal.  For `k = "__proto__"` the
inherited setter runs, which ignores a string, and no own property is created. -/
def protoSet (own : Dict String) (k : String) (v : String) : Dict String :=
  if k = "__proto__" then own else own.set k v

/-- The read `this.blocklyTypes_[k]`. -/
def blocklyTypeOf (env : Env DB) (t : BlocklyTypes) (k : String) : JSVal :=
  match t with
  | BlocklyTypes.emptyObject => env.objectProto k
  | BlocklyTypes.emptyArray => env.emptyArray k

/-- Method `Blockly.Java.setGlobalVar`: the whole body is commented out. -/
def setGlobalVar {Block : Type} (st : JavaGen DB) (_block : Block) (_name : String)
    (_val : Option String) : JavaGen DB :=
  st

/-- Method `Blockly.Java.provideVarClass`: empty body. -/
def provideVarClass (st : JavaGen DB) : JavaGen DB :=
  st

/-- Method `Blockly.Java.GetVariableType`. -/
def GetVariableType (env : Env DB) (st : JavaGen DB) (name : String) : JSVal × JavaGen DB :=
  let type := protoGet env st.variableTypes_ name
  if !type.truthy then (JSVal.str "float", provideVarClass st) else (type, st)

/-- Method `Blockly.Java.GetBlocklyType`. -/
def GetBlocklyType (env : Env DB) (st : JavaGen DB) (name : String) : JSVal :=
  blocklyTypeOf env st.blocklyTypes_ name

/-- Method `Blockly.Java.addImport`; raises when `imports_` is `undefined`. -/
def addImport (st : JavaGen DB) (importlib : String) : Except String (JavaGen DB) :=
  let importStr := "import " ++ importlib ++ ";"
  match st.imports_ with
  | none => Except.error "TypeError: imports_ is undefined"
  | some d => Except.ok { st with imports_ := some (d.set importStr importStr) }

/-- Method `Blockly.Java.getImports`. -/
def getImports (st : JavaGen DB) : Except String (String × JavaGen DB) := do
  let st ← match st.ExtraImports_ with
    | some extra => extra.foldlM addImport st
    | none => pure st
  let keys := match st.imports_ with
    | none => []
    | some d => d.values
  pure (jsJoin "\n" (jsSort keys), st)

/-- Method `Blockly.Java.setExtraImports`. -/
def setExtraImports (st : JavaGen DB) (extraImports : Option (List String)) : JavaGen DB :=
  { st with ExtraImports_ := extraImports }

/-- Method `Blockly.Java.getClasses`. -/
def getClasses (st : JavaGen DB) : String :=
  let code := st.classes_.keys.foldl (fun code name => code ++ (st.classes_.get? name).getD "") ""
  if code != "" then code ++ "\n\n" else code

/-- Method `Blockly.Java.setExtraClass`. -/
def setExtraClass (st : JavaGen DB) (name : String) (code : List String) : JavaGen DB :=
  { st with classes_ := st.classes_.set name (jsJoin "\n" code ++ "\n") }

/-- Method `Blockly.Java.getBaseclass`; raises when a base class is set and `variableDB_` is
`undefined`. -/
def getBaseclass (env : Env DB) (st : JavaGen DB) : Except String (String × JavaGen DB) :=
  let baseClass := st.Baseclass_
  if baseClass != "" then
    match st.variableDB_ with
    | none => Except.error "TypeError: variableDB_ is undefined"
    | some db =>
      let r := env.getName db baseClass "CLASS"
      Except.ok (r.1, { st with variableDB_ := some r.2 })
  else Except.ok (baseClass, st)

/-- Method `Blockly.Java.workspaceToCode`, over the saved base implementation
`workspaceToCode_` of `Blockly.Generator`. -/
def workspaceToCode (env : Env DB)
    (workspaceToCode_ : JavaGen DB → Workspace → Except String (String × JavaGen DB))
    (st : JavaGen DB) (workspace : Workspace) : Except String (String × JavaGen DB) := do
  let (code, st) ← workspaceToCode_ st workspace
  let (imports, st) ← getImports st
  let finalcode := imports ++ "\n\n"
  let (_baseClass, st) ← getBaseclass env st
  let finalcode := finalcode ++ (code ++ "\n")
  let finalcode := finalcode ++ getClasses st
  pure (finalcode, st)

/-- The chain of tests in the loop of `init` (lines 374 to 403): the type to record for the tag
read from `blocklyTypes_`, and whether `needVarClass` is set. -/
def mapType (env : Env DB) (type : JSVal) : String × Bool :=
  if type = JSVal.str "Object" then ("Object", false)
  else if type = JSVal.str "Array" then ("LinkedList", false)
  else if type = JSVal.str "Map" then ("HashMap", false)
  else if type = JSVal.str "Var" then ("Var", true)
  else if type = JSVal.str "Boolean" then ("Boolean", false)
  else if type = JSVal.str "String" then ("String", false)
  else if type = JSVal.str "Colour" then ("String", false)
  else if type = JSVal.str "Number" then ("double", false)
  else if type ≠ JSVal.undefined ∧ type ≠ JSVal.str "" then
    match env.gbpClass type with
    | some cls => if cls != "" then (cls, false) else ("Var", true)
    | none => ("Var", true)
  else ("Object", false)

/-- One turn of the loop over `variables` in `init`. -/
def initVariable (env : Env DB) (acc : JavaGen DB × Bool) (key : String) : JavaGen DB × Bool :=
  let type := blocklyTypeOf env acc.1.blocklyTypes_ key
  let r := mapType env type
  ({ acc.1 with variableTypes_ := protoSet acc.1.variableTypes_ key r.1 }, acc.2 || r.2)

/-- Method `Blockly.Java.init`. -/
def init (env : Env DB) (st : JavaGen DB) (workspace : Workspace) : Except String (JavaGen DB) := do
  let st := { st with definitions_ := some Dict.empty }
  let st := { st with functionNames_ := some Dict.empty }
  let st := { st with imports_ := some Dict.empty }
  let st := { st with classes_ := Dict.empty }
  let st := { st with globals_ := Dict.empty }
  let st ← st.needImports_.foldlM addImport st
  let st := match st.variableDB_ with
    | none => { st with variableDB_ := some (env.newNames st.RESERVED_WORDS_) }
    | some db => { st with variableDB_ := some (env.resetNames db) }
  let vars := allVariables workspace
  let st := { st with blocklyTypes_ := BlocklyTypes.emptyArray }
  -- an empty array has no enumerable property, so the loop `for (var name in blocklyTypes_)`
  -- pushes nothing
  let r := vars.foldl (initVariable env) (st, false)
  pure (if r.2 then provideVarClass r.1 else r.1)

/-- Slot chosen for a definition by the first loop of `finish` (lines 425 to 436): a producer
stays in slot 1; a text goes to slot 0 when `def.split(" ", 3)` contains `static`. -/
def slotOf (d : Def) : Nat :=
  match d with
  | Def.producer _ => 1
  | Def.text s => if (jsSplit s ' ' 3).contains "static" then 0 else 1

/-- The array `funcs[slot]` after the first loop of `finish` (lines 420 to 438): the names pushed
to the slot, in enumeration order; the name `variables` is skipped.  A deleted `definitions_` is
enumerated as having no property. -/
def funcsOf (defs : Option (Dict Def)) (slot : Nat) : List String :=
  match defs with
  | none => []
  | some d =>
    d.keys.filter (fun name => name != "variables" &&
      (match d.get? name with
       | some df => slotOf df == slot
       | none => false))

/-- Text of a definition as emitted by the last loop of `finish`: the registered text, or the
result of calling the producer. -/
def defText (defs : Option (Dict Def)) (name : String) : String :=
  match defs.bind (fun d => d.get? name) with
  | some (Def.text s) => s
  | some (Def.producer f) => f ()
  | none => "undefined"

/-- One turn of the loop over `globals_` in `finish` (lines 445 to 458): the line added to
`allDefs`, and the registry after `getName`. -/
def globalLine (env : Env DB) (st : JavaGen DB) (db : DB) (name : String) : String × DB :=
  let type := (GetVariableType env st name).1
  let g := (st.globals_.get? name).bind id
  let initializer :=
    if g ≠ none ∧ g ≠ some "" then " = " ++ g.getD ""
    else if type = JSVal.str "Var" then " = new Var(0)"
    else if type = JSVal.str "Boolean" then " = false"
    else if type = JSVal.str "String" then " = \"\""
    else ""
  let varname := env.getName db name env.nameType
  ("protected " ++ type.toText ++ " " ++ varname.1 ++ initializer ++ ";\n", varname.2)

/-- The text `allDefs` in `finish` after the loop over `globals_` (lines 442 to 459), with the
registry as the calls of `getName` leave it. -/
def globalDefs (env : Env DB) (st : JavaGen DB) (db : DB) : String × DB :=
  st.globals_.keys.foldl
    (fun acc name => let r := globalLine env st acc.2 name; (acc.1 ++ r.1, r.2)) ("", db)

/-- The text `allDefs` in `finish` after the loop over the two slots (lines 461 to 501); the
header stays empty because its computation is disabled by `if (false)`. -/
def allDefsOf (env : Env DB) (st : JavaGen DB) (db : DB) : String :=
  [0, 1].foldl
    (fun allDefs slot =>
      (jsSort (funcsOf st.definitions_ slot)).foldl
        (fun allDefs name => allDefs ++ (defText st.definitions_ name ++ "\n\n")) allDefs)
    (globalDefs env st db).1

/-- The expression `allDefs.replace(/\n\n+/g, '\n\n').replace(/\n*$/, '\n\n\n')` at line 506. -/
def normalizePreamble (allDefs : String) : String :=
  String.mk (replaceTrailingNewlines (collapseNewlines allDefs.data))

/-- Method `Blockly.Java.finish`; raises when `variableDB_` is `undefined`.  `GetVariableType`
leaves the generator unchanged, so only the registry is threaded through the loop. -/
def finish (env : Env DB) (st : JavaGen DB) (code : String) :
    Except String (String × JavaGen DB) :=
  match st.variableDB_ with
  | none => Except.error "TypeError: variableDB_ is undefined"
  | some db =>
    let allDefs := allDefsOf env st db
    let st1 := { st with definitions_ := none }
    let st2 := { st1 with functionNames_ := none }
    let st3 := { st2 with variableDB_ := some (env.resetNames (globalDefs env st db).2) }
    Except.ok (normalizePreamble allDefs ++ code, st3)

/-- Method `Blockly.Java.scrubNakedValue`. -/
def scrubNakedValue (line : String) : String :=
  line ++ ";\n"

/-! ## A concrete host and generator for evaluation -/

/-- A host in which `Object.prototype` has the members `constructor`, `toString` and the
accessor `__proto__`, an empty array has `length` and the inherited members, no block type has a
`GBPClass`, and the registry returns every name unchanged. -/
def plainEnv : Env Unit where
  objectProto := fun k =>
    if k = "__proto__" then JSVal.object "[object Object]"
    else if k = "constructor" then JSVal.object "function Object() \x7b [native code] \x7d"
    else if k = "toString" then JSVal.object "function toString() \x7b [native code] \x7d"
    else JSVal.undefined
  emptyArray := fun k =>
    if k = "length" then JSVal.num 0
    else if k = "__proto__" then JSVal.object ""
    else if k = "constructor" then JSVal.object "function Array() \x7b [native code] \x7d"
    else if k = "toString" then JSVal.object "function toString() \x7b [native code] \x7d"
    else JSVal.undefined
  gbpClass := fun _ => none
  newNames := fun _ => ()
  resetNames := fun _ => ()
  getName := fun _ name _ => (name, ())
  nameType := "VARIABLE"

/-- The generator as the top of `generators/java.js` leaves it, before any pass. -/
def freshGen (DB : Type) : JavaGen DB where
  RESERVED_WORDS_ := ""
  POSTFIX := ""
  EXTRAINDENT := ""
  variableTypes_ := Dict.empty
  blocklyTypes_ := BlocklyTypes.emptyObject
  AppName_ := ""
  Package_ := ""
  Baseclass_ := ""
  needImports_ := []
  ExtraImports_ := none
  INLINEVARCLASS := true
  classes_ := Dict.empty
  globals_ := Dict.empty
  definitions_ := none
  functionNames_ := none
  imports_ := none
  variableDB_ := none


/-! ## Blocks and the base generator -/

/-- An entry of `block.inputList`: its `type` constant and the block its connection holds. -/
structure Input (Block : Type) where
  type : Nat
  targetBlock : Option Block

/-- Read access to the blocks of the workspace.  `Blockly.Block` lives outside
`generators/java.js`, which only reads these members. -/
structure BlockApi (Block : Type) where
  /-- Member `block.type`. -/
  type : Block → String
  /-- Member `block.procedurePrefix_`. -/
  procedurePrefix_ : Block → JSVal
  /-- Method `block.getFieldValue(name)`, for a field that exists. -/
  getFieldValue : Block → String → String
  /-- Method `block.getInputTargetBlock(name)`; `none` when the input does not exist or holds no
  block. -/
  getInputTargetBlock : Block → String → Option Block
  /-- Member `block.outputConnection`: `none` when the block has no output connection, else
  whether its `targetConnection` is set. -/
  outputConnection : Block → Option Bool
  /-- Method `block.getCommentText()`; the empty string when the block has no comment. -/
  getCommentText : Block → String
  /-- Member `block.inputList`. -/
  inputList : Block → List (Input Block)
  /-- Value of `block.nextConnection && block.nextConnection.targetBlock()`. -/
  nextTarget : Block → Option Block
  /-- Constant `Blockly.INPUT_VALUE`. -/
  INPUT_VALUE : Nat

/-- Members of `Blockly.Generator` and of `Blockly` that `generators/java.js` calls and does not
define. -/
structure BaseGen (DB Block : Type) where
  /-- Method `valueToCode(block, name, order)`: text of the connected value and the generator
  as the rendering leaves it. -/
  valueToCode : JavaGen DB → Block → String → Nat → Except String (String × JavaGen DB)
  /-- Method `provideFunction_(desiredName, code)`. -/
  provideFunction_ : JavaGen DB → String → List String → Except String (String × JavaGen DB)
  /-- Method `prefixLines(text, prefix)`. -/
  prefixLines : String → String → String
  /-- Method `allNestedComments(block)`. -/
  allNestedComments : Block → String
  /-- Function `Blockly.isNumber(str)`. -/
  isNumber : String → Bool
  /-- The generator function `this[block.type]` of a statement block: its text and the
  generator as it leaves it. -/
  blockGenerator : JavaGen DB → Block → Except String (String × JavaGen DB)

variable {Block : Type}

/-- Constant `Blockly.Java.ORDER_NONE`. -/
def ORDER_NONE : Nat := 99

/-- White space and line terminators removed by `String.prototype.trim`. -/
def isJsSpace (c : Char) : Bool :=
  c.toNat = 0x09 || c.toNat = 0x0A || c.toNat = 0x0B || c.toNat = 0x0C || c.toNat = 0x0D
    || c.toNat = 0x20 || c.toNat = 0xA0 || c.toNat = 0x1680
    || (0x2000 ≤ c.toNat && c.toNat ≤ 0x200A)
    || c.toNat = 0x2028 || c.toNat = 0x2029 || c.toNat = 0x202F || c.toNat = 0x205F
    || c.toNat = 0x3000 || c.toNat = 0xFEFF

/-- Result of `item.trim()`. -/
def jsTrim (s : String) : String :=
  String.mk ((s.data.dropWhile isJsSpace).reverse.dropWhile isJsSpace).reverse

/-- The lines of the helper `blocklyToString` passed to `provideFunction_` (lines 567 to 594). -/
def blocklyToStringLines : List String :=
  [ "public static String blocklyToString(Object object) \x7b",
    "    String result;",
    "    if (object instanceof String) \x7b",
    "        result = (String) object;",
    "    \x7d else \x7b",
    "        // must be a number",
    "        // might be a double",
    "        try \x7b",
    "            Double d = (double) object;",
    "            // it was a double, so keep going",
    "            NumberFormat formatter = new DecimalFormat(\"#.#####\");",
    "            result = formatter.format(d);",
    "",
    "        \x7d catch (Exception ex) \x7b",
    "            // not a double, see if it is an integer",
    "            try \x7b",
    "                Integer i = (int) object;",
    "                // format should be number with a decimal point",
    "                result = i.toString();",
    "            \x7d catch (Exception ex2) \x7b",
    "                // not a double or integer",
    "                result = \"UNKNOWN\";",
    "            \x7d",
    "        \x7d",
    "    \x7d",
    "",
    "  return result;",
    "\x7d" ]

/-- Method `Blockly.Java.toStringCode`.  `GetVariableType` leaves the generator unchanged, so
only its result is used. -/
def toStringCode (env : Env DB) (api : BlockApi Block) (base : BaseGen DB Block)
    (st : JavaGen DB) (block : Block) (name : String) : Except String (String × JavaGen DB) :=
  match api.getInputTargetBlock block name with
  | none => Except.ok ("", st)
  | some targetBlock => do
    let (item, st) ← base.valueToCode st block name ORDER_NONE
    let item := jsTrim item
    -- Empty strings and quoted strings are perfectly fine as they are
    if item != "" && item.data.head? != some '"' then
      if api.type targetBlock = "variables_get" &&
          (GetVariableType env st ((api.procedurePrefix_ targetBlock).toText ++
            api.getFieldValue targetBlock "VAR")).1 = JSVal.str "Var" then
        pure (item ++ ".toString()", st)
      else if base.isNumber item then
        -- Pure numbers get quoted
        pure ("\"" ++ item ++ "\"", st)
      else if api.type targetBlock != "variables_get" &&
          (GetVariableType env st item).1 = JSVal.str "Var" then
        pure (item ++ ".toString()", st)
      else do
        -- It is something else so we need to convert it on the fly
        let st ← addImport st "java.text.DecimalFormat"
        let st ← addImport st "java.text.NumberFormat"
        let (functionName, st) ← base.provideFunction_ st "blocklyToString" blocklyToStringLines
        pure (functionName ++ "(" ++ item ++ ")", st)
    else pure (item, st)

/-- The text `commentCode` built by `scrub_` (lines 612 to 633). -/
def commentCodeOf (api : BlockApi Block) (base : BaseGen DB Block) (block : Block) : String :=
  -- Only collect comments for blocks that aren't inline.
  if (match api.outputConnection block with
      | none => true
      | some targetConnection => !targetConnection) then
    let comment := api.getCommentText block
    let commentCode := if comment != "" then base.prefixLines comment "// " ++ "\n" else ""
    (api.inputList block).foldl
      (fun commentCode input =>
        if input.type = api.INPUT_VALUE then
          match input.targetBlock with
          | some childBlock =>
            let comment := base.allNestedComments childBlock
            if comment != "" then commentCode ++ base.prefixLines comment "// " else commentCode
          | none => commentCode
        else commentCode)
      commentCode
  else ""

/-- Method `Blockly.Java.scrub_`, over the method `blockToCode` of the base generator. -/
def scrub_ (api : BlockApi Block) (base : BaseGen DB Block)
    (blockToCode : JavaGen DB → Option Block → Except String (String × JavaGen DB))
    (st : JavaGen DB) (block : Block) (code : String) : Except String (String × JavaGen DB) := do
  let commentCode := commentCodeOf api base block
  let postFix := st.POSTFIX
  let st := { st with POSTFIX := "" }
  let extraIndent := st.EXTRAINDENT
  let st := { st with EXTRAINDENT := "" }
  let nextBlock := api.nextTarget block
  let (nextCode, st) ← blockToCode st nextBlock
  let nextCode := if extraIndent != "" then base.prefixLines nextCode extraIndent else nextCode
  pure (commentCode ++ code ++ nextCode ++ postFix, st)

/-- Modelled from the spec: `Blockly.Generator.prototype.blockToCode`, which is outside
`generators/java.js`.  Section 4.4: no block gives the empty text; for a block, "render its own
statement text via its type-specific rule", then the common step (`scrub_`) attaches the comments
and "recurses into the block's next-statement link, rendering it with the same rule".  The first
argument bounds the number of blocks walked; running out of it stands for a walk that does not
return. -/
def blockToCode (api : BlockApi Block) (base : BaseGen DB Block) :
    Nat → JavaGen DB → Option Block → Except String (String × JavaGen DB)
  | _, st, none => Except.ok ("", st)
  | 0, _, some _ => Except.error "the walk did not return"
  | fuel + 1, st, some block => do
    let (code, st) ← base.blockGenerator st block
    scrub_ api base (blockToCode api base fuel) st block code

/-- Modelled from the spec: `Blockly.Generator.prototype.provideFunction_`, which is outside
`generators/java.js`.  A helper is "added to the Deferred-Declaration Ledger on first use,
referenced by subsequent uses": the first call for `desiredName` reserves an identifier in the
name registry, records it in the helper-function-name table and stores the joined lines in the
ledger; every call returns the recorded identifier. -/
def provideFunction (env : Env DB) (st : JavaGen DB) (desiredName : String)
    (code : List String) : Except String (String × JavaGen DB) :=
  match st.definitions_, st.functionNames_, st.variableDB_ with
  | some defs, some names, some db =>
    match defs.get? desiredName with
    | some _ => Except.ok ((names.get? desiredName).getD "undefined", st)
    | none =>
      let functionName := env.getName db desiredName "generated_function"
      Except.ok (functionName.1,
        { st with
          variableDB_ := some functionName.2
          functionNames_ := some (names.set desiredName functionName.1)
          definitions_ := some (defs.set desiredName (Def.text (jsJoin "\n" code))) })
  | _, _, _ => Except.error "TypeError: the ledger is undefined"

/-- Modelled from the spec: `Blockly.Generator.prototype.prefixLines`, which is outside
`generators/java.js`: the prefix is "applied as a line-prefix", at the start of the text and
after every newline that a character other than a newline follows. -/
def prefixLinesChars (pre : List Char) : List Char → List Char
  | [] => []
  | c :: rest =>
    if c = '\n' ∧ rest ≠ [] ∧ rest.head? ≠ some '\n' then c :: (pre ++ prefixLinesChars pre rest)
    else c :: prefixLinesChars pre rest

/-- Modelled from the spec: the text of `prefixLines(text, prefix)`. -/
def prefixLinesText (text pre : String) : String :=
  pre ++ String.mk (prefixLinesChars pre.data text.data)
/-! ## Auxiliary definitions for the statements -/

/-- The text before the trailing run of newlines. -/
def stripTrailingNewlines : List Char → List Char
  | [] => []
  | c :: rest =>
    if (c :: rest).all (fun x => x = '\n') then [] else c :: stripTrailingNewlines rest

/-- JavaScript string order `a < b`. -/
def jsLt (a b : String) : Prop := ¬ jsLe b a

/-- Concatenation of a list of texts, in order. -/
def concatTexts : List String → String
  | [] => ""
  | a :: rest => a ++ concatTexts rest

/-- The text returned by `finish`; `none` when `finish` raises. -/
def finishText (env : Env DB) (st : JavaGen DB) (code : String) : Option String :=
  match finish env st code with
  | Except.ok r => some r.1
  | Except.error _ => none

/-- Dictionary `imports_` after `addImport` has been called for each library of `libs`. -/
def importsAfter (d : Dict String) (libs : List String) : Dict String :=
  libs.foldl (fun d lib => d.set ("import " ++ lib ++ ";") ("import " ++ lib ++ ";")) d

/-- Generator state in which `init` returns: the closed form of its assignments. -/
def initState (env : Env DB) (st : JavaGen DB) (ws : Workspace) : JavaGen DB :=
  { st with
    definitions_ := some Dict.empty
    functionNames_ := some Dict.empty
    imports_ := some (importsAfter Dict.empty st.needImports_)
    classes_ := Dict.empty
    globals_ := Dict.empty
    variableDB_ := some (match st.variableDB_ with
      | none => env.newNames st.RESERVED_WORDS_
      | some db => env.resetNames db)
    blocklyTypes_ := BlocklyTypes.emptyArray
    variableTypes_ := ((allVariables ws).foldl
      (fun vt key => protoSet vt key (mapType env (env.emptyArray key)).1) st.variableTypes_) }

/-- Names in the order in which they were first registered. -/
def firstRegistered (names : List String) : List String :=
  names.foldl (fun acc n => if n ∈ acc then acc else acc ++ [n]) []

/-- Text stored by `setExtraClass(name, lines)`. -/
def classText (lines : List String) : String :=
  jsJoin "\n" lines ++ "\n"

/-- Class text of the last registration made under `name`. -/
def lastClassText (regs : List (String × List String)) (name : String) : String :=
  match regs.reverse.find? (fun r => r.1 = name) with
  | some r => classText r.2
  | none => ""

/-- Dictionary `classes_` after the registrations `regs`. -/
def classesAfter (d : Dict String) (regs : List (String × List String)) : Dict String :=
  regs.foldl (fun d r => d.set r.1 (classText r.2)) d

/-- Default initializer of a global by its resolved type, in the words of the spec. -/
def defaultInitializer (type : JSVal) : String :=
  if type = JSVal.str "Var" then " = new Var(0)"
  else if type = JSVal.str "Boolean" then " = false"
  else if type = JSVal.str "String" then " = \"\""
  else ""

/-- Initializer of a global, in the words of the spec: the supplied one when it is neither absent
nor empty, else the default for the resolved type. -/
def specInitializer (init : Option String) (type : JSVal) : String :=
  match init with
  | some v => if v = "" then defaultInitializer type else " = " ++ v
  | none => defaultInitializer type

/-- Identifiers returned by the successive calls `getName(name, NAME_TYPE)` for `names`. -/
def registryNames (env : Env DB) : DB → List String → List String
  | _, [] => []
  | db, n :: rest =>
    (env.getName db n env.nameType).1 :: registryNames env (env.getName db n env.nameType).2 rest

/-- Field declaration for a global, in the words of the spec. -/
def specGlobalLine (env : Env DB) (st : JavaGen DB) (name safeName : String) : String :=
  "protected " ++ (GetVariableType env st name).1.toText ++ " " ++ safeName ++
    specInitializer ((st.globals_.get? name).bind id) (GetVariableType env st name).1 ++ ";\n"

/-- Texts added to `allDefs` for the definitions: statics first, each slot sorted. -/
def definitionTexts (st : JavaGen DB) : List String :=
  (jsSort (funcsOf st.definitions_ 0) ++ jsSort (funcsOf st.definitions_ 1)).map
    (fun name => defText st.definitions_ name ++ "\n\n")

/-! ## Concrete generators for evaluation -/

/-- The generator after `init` on the empty workspace, in the plain host. -/
def passGen : JavaGen Unit :=
  initState plainEnv (freshGen Unit) ⟨[]⟩

/-- A generator whose global table holds `flag` without initializer and whose recorded type for
`flag` is `Boolean`. -/
def boolGlobalGen : JavaGen Unit :=
  { passGen with
    globals_ := Dict.empty.set "flag" none
    variableTypes_ := Dict.empty.set "flag" "Boolean" }

/-- A generator in a pass with two globals and three definitions, one registered under the name
`variables`. -/
def demoGen : JavaGen Unit :=
  { passGen with
    globals_ := (Dict.empty.set "flag" none).set "count" (some "3")
    variableTypes_ := (Dict.empty.set "flag" "Boolean").set "count" "double"
    definitions_ := some (((Dict.empty.set "helper" (Def.text "void helper()")).set "main"
      (Def.text "public static void main()")).set "variables" (Def.text "int unused;")) }

/-- A generator in a pass whose only definition is registered under the name `variables`. -/
def variablesOnlyGen : JavaGen Unit :=
  { passGen with definitions_ := some (Dict.empty.set "variables" (Def.text "int unused;")) }

/-- A base pass for evaluation: `init`, then `finish` on the body `flag;`. -/
def demoBase (st : JavaGen Unit) (ws : Workspace) : Except String (String × JavaGen Unit) := do
  let st ← init plainEnv st ws
  finish plainEnv st "flag;\n"

/-- The generator as `demoBase` leaves it on the empty workspace. -/
def afterPassGen : JavaGen Unit :=
  { passGen with definitions_ := none, functionNames_ := none }

/-! ## Auxiliary definitions for blocks -/

/-- Text `nextCode` of `scrub_` after the optional indentation (lines 640 to 642). -/
def indentBy (base : BaseGen DB Block) (extraIndent nextCode : String) : String :=
  if extraIndent != "" then base.prefixLines nextCode extraIndent else nextCode

/-- The generator with `POSTFIX` and `EXTRAINDENT` reset, as `scrub_` passes it on. -/
def resetDecorations (st : JavaGen DB) : JavaGen DB :=
  { st with POSTFIX := "", EXTRAINDENT := "" }

/-- Comment texts of the connected value inputs, in input order, in the words of the spec: the
nested comments of each connected value input that has some, prefixed per line. -/
def valueInputComments (api : BlockApi Block) (base : BaseGen DB Block) (block : Block) :
    List String :=
  ((((api.inputList block).filter (fun input => input.type = api.INPUT_VALUE)).filterMap
    (fun input => input.targetBlock)).map base.allNestedComments).filter (fun c => c != "")
    |>.map (fun c => base.prefixLines c "// ")

/-- Whether the next-link chain from a block ends within `n` blocks. -/
def chainEndsWithin (api : BlockApi Block) : Nat → Option Block → Bool
  | _, none => true
  | 0, some _ => false
  | n + 1, some block => chainEndsWithin api n (api.nextTarget block)

/-! ## A concrete block world for evaluation -/

/-- Blocks for evaluation, by number.  The chain 0, 1, 2 of statements; the statement 5 whose
next link is itself; the statements 20, 22, 24, 26, 30, 40, 42, 44, 46 with the value input
`TEXT` holding the next number, and 28 whose input `TEXT` is empty; the statement 50 with a
comment, a value input holding 51, a statement input holding 52 and an empty value input. -/
def plainBlocks : BlockApi Nat where
  type := fun b =>
    if b = 21 ∨ b = 23 ∨ b = 31 ∨ b = 41 ∨ b = 43 ∨ b = 45 ∨ b = 47 then "variables_get"
    else if b = 25 then "math_number"
    else if b = 27 then "text"
    else "statement"
  procedurePrefix_ := fun _ => JSVal.str ""
  getFieldValue := fun b _ =>
    if b = 21 ∨ b = 31 ∨ b = 41 ∨ b = 43 then "length"
    else if b = 23 then "total"
    else if b = 45 then "count"
    else if b = 47 then "name"
    else ""
  getInputTargetBlock := fun b name =>
    if name = "TEXT" ∧ (b = 20 ∨ b = 22 ∨ b = 24 ∨ b = 26 ∨ b = 30 ∨ b = 40 ∨ b = 42 ∨ b = 44
        ∨ b = 46) then some (b + 1)
    else if name = "VALUE" ∧ b = 50 then some 51
    else none
  outputConnection := fun b =>
    if b = 21 ∨ b = 23 ∨ b = 25 ∨ b = 27 ∨ b = 31 ∨ b = 41 ∨ b = 43 ∨ b = 45 ∨ b = 47 ∨ b = 51
    then some true
    else if b = 60 then some false
    else none
  getCommentText := fun b =>
    if b = 50 then "first\nsecond" else if b = 51 then "inner" else if b = 52 then "body" else ""
  inputList := fun b =>
    if b = 50 then [⟨1, some 51⟩, ⟨3, some 52⟩, ⟨1, none⟩]
    else if b = 20 ∨ b = 22 ∨ b = 24 ∨ b = 26 ∨ b = 30 ∨ b = 40 ∨ b = 42 ∨ b = 44 ∨ b = 46
    then [⟨1, some (b + 1)⟩]
    else if b = 28 then [⟨1, none⟩]
    else []
  nextTarget := fun b =>
    if b = 0 then some 1 else if b = 1 then some 2 else if b = 5 then some 5 else none
  INPUT_VALUE := 1

/-- A base generator for evaluation over `plainBlocks`: each value block renders as a fixed
text and leaves the generator unchanged, `provideFunction_` and `prefixLines` are the models
from the spec, a string of digits is a number, and the statement 0 opens a brace, setting the
extra indent and the closing postfix. -/
def plainBase : BaseGen Unit Nat where
  valueToCode := fun st b name _ =>
    match plainBlocks.getInputTargetBlock b name with
    | none => Except.ok ("", st)
    | some t =>
      Except.ok
        (if t = 21 ∨ t = 31 ∨ t = 41 ∨ t = 43 then "length"
         else if t = 23 then " total "
         else if t = 25 then "42"
         else if t = 27 then "\"hi\""
         else if t = 45 then "count"
         else if t = 47 then "name"
         else "", st)
  provideFunction_ := provideFunction plainEnv
  prefixLines := prefixLinesText
  allNestedComments := fun b => if b = 51 then "inner\n" else if b = 52 then "body\n" else ""
  isNumber := fun s => s.data ≠ [] && s.data.all Char.isDigit
  blockGenerator := fun st b =>
    if b = 0 then Except.ok ("try \x7b\n", { st with EXTRAINDENT := "  ", POSTFIX := "\x7d\n" })
    else if b = 1 then Except.ok ("b();\n", st)
    else if b = 2 then Except.ok ("c();\n", st)
    else if b = 5 then Except.ok ("loop();\n", st)
    else Except.ok ("", st)

/-- The generator after the generator function of block 0 of `plainBlocks` has run in a pass:
the extra indent and the closing postfix are set. -/
def braceGen : JavaGen Unit :=
  { passGen with EXTRAINDENT := "  ", POSTFIX := "\x7d\n" }

/-- Whether `toStringCode` leaves the conversion of `item` to run time (lines 549 to 561): the
text is neither empty nor a quoted literal, it is not a number, and neither test for the tracked
type `Var` succeeds. -/
def convertsAtRuntime (env : Env DB) (api : BlockApi Block) (base : BaseGen DB Block)
    (st : JavaGen DB) (targetBlock : Block) (item : String) : Bool :=
  (item != "" && item.data.head? != some '"')
    && !(decide (api.type targetBlock = "variables_get") &&
          decide ((GetVariableType env st ((api.procedurePrefix_ targetBlock).toText ++
            api.getFieldValue targetBlock "VAR")).1 = JSVal.str "Var"))
    && !base.isNumber item
    && !(api.type targetBlock != "variables_get" &&
          decide ((GetVariableType env st item).1 = JSVal.str "Var"))

/-- The calls `toStringCode(block, name)` for the call sites of a list, one after the other: the
texts returned and the generator after the last call. -/
def toStringCodes (env : Env DB) (api : BlockApi Block) (base : BaseGen DB Block) :
    JavaGen DB → List (Block × String) → Except String (List String × JavaGen DB)
  | st, [] => Except.ok ([], st)
  | st, site :: rest =>
    (toStringCode env api base st site.1 site.2).bind (fun r =>
      (toStringCodes env api base r.2 rest).bind (fun rs => Except.ok (r.1 :: rs.1, rs.2)))

/-- Text stored in the ledger for the helper `blocklyToString`. -/
def blocklyToStringBody : String :=
  jsJoin "\n" blocklyToStringLines

/-- The ledger that holds the helper `blocklyToString` and nothing else. -/
def helperLedger : Dict Def :=
  Dict.empty.set "blocklyToString" (Def.text blocklyToStringBody)

/-- State of a pass in which the helper `blocklyToString` is registered under the identifier
`f` and nothing else is: the ledger, the helper-function-name table and the registry, with the
types and globals of `st0`. -/
def HelperRegistered (st0 : JavaGen DB) (f : String) (db1 : DB) (s : JavaGen DB) : Prop :=
  s.definitions_ = some helperLedger ∧
  s.functionNames_ = some (Dict.empty.set "blocklyToString" f) ∧
  s.variableDB_ = some db1 ∧
  (∃ d, s.imports_ = some d) ∧
  s.variableTypes_ = st0.variableTypes_ ∧
  s.globals_ = st0.globals_

/-- The generator after `init`, in the plain host, on a workspace with the variables `total`,
`count`, `name` and `length`. -/
def typedGen : JavaGen Unit :=
  initState plainEnv (freshGen Unit)
    ⟨[("total", JSVal.str "Number"), ("count", JSVal.str "Number"), ("name", JSVal.str "String"),
      ("length", JSVal.str "Number")]⟩

/-- A generator in a pass whose ledger holds the instance definition `a` and the definition `z`
whose text has `static` as its third word. -/
def thirdWordGen : JavaGen Unit :=
  { passGen with
    definitions_ := some ((Dict.empty.set "a" (Def.text "void a()")).set "z"
      (Def.text "public final static void z()")) }

/-- The preamble as `finish` assembles it before the two replacements of line 506: the
declarations of the globals in enumeration order, then the texts of the definitions. -/
def renderedPreamble (env : Env DB) (st : JavaGen DB) (db : DB) : String :=
  concatTexts (List.zipWith (specGlobalLine env st) st.globals_.keys
      (registryNames env db st.globals_.keys))
    ++ concatTexts (definitionTexts st)

/-! ## Text normalisation -/

theorem replaceTrailingNewlines_eq (l : List Char) :
    replaceTrailingNewlines l = stripTrailingNewlines l ++ ['\n', '\n', '\n'] := by
  induction l with
  | nil => rfl
  | cons c rest ih =>
    unfold replaceTrailingNewlines stripTrailingNewlines
    split
    · rfl
    · rw [ih]; rfl

theorem stripTrailingNewlines_eq_nil (l : List Char)
    (h : stripTrailingNewlines l = []) : l.all (fun x => x = '\n') = true := by
  cases l with
  | nil => rfl
  | cons c rest =>
    unfold stripTrailingNewlines at h
    split at h
    · assumption
    · cases h

theorem stripTrailingNewlines_getLast (l : List Char) :
    (stripTrailingNewlines l).getLast? ≠ some '\n' := by
  induction l with
  | nil => simp [stripTrailingNewlines]
  | cons c rest ih =>
    unfold stripTrailingNewlines
    split
    · simp
    · rename_i hall
      cases hs : stripTrailingNewlines rest with
      | nil =>
        have hr := stripTrailingNewlines_eq_nil rest hs
        intro hc
        simp at hc
        apply hall
        simp only [List.all_cons, hr, Bool.and_true]
        simpa using hc
      | cons d ds =>
        rw [List.getLast?_cons_cons, ← hs]
        exact ih

theorem stripTrailingNewlines_initial (l : List Char) : stripTrailingNewlines l <+: l := by
  induction l with
  | nil => exact List.prefix_refl _
  | cons c rest ih =>
    unfold stripTrailingNewlines
    split
    · exact List.nil_prefix
    · exact (List.prefix_cons_inj c).2 ih

theorem collapseNewlines_head (l : List Char) : (collapseNewlines l).head? = l.head? := by
  induction l with
  | nil => rfl
  | cons c rest ih =>
    unfold collapseNewlines
    split
    · rename_i h
      rw [ih]
      obtain ⟨h1, h2⟩ := h
      cases rest with
      | nil => simp at h2
      | cons d r => simp at h2 ⊢; rw [h1]; exact h2.1
    · rfl

theorem collapseNewlines_no_triple (l : List Char) :
    ¬ (['\n', '\n', '\n'] <:+: collapseNewlines l) := by
  induction l with
  | nil => simp [collapseNewlines]
  | cons c rest ih =>
    unfold collapseNewlines
    split
    · exact ih
    · rename_i hkeep
      rw [List.infix_cons_iff]
      rintro (hp | hi)
      · apply hkeep
        rw [List.prefix_cons_iff] at hp
        rcases hp with hp | ⟨t, ht, hpre⟩
        · cases hp
        · injection ht with hc ht
          subst ht
          refine ⟨hc.symm, ?_⟩
          -- the kept output starts with two newlines, hence so does `rest`
          cases rest with
          | nil => simp [collapseNewlines] at hpre
          | cons d r =>
            have hd := collapseNewlines_head (d :: r)
            obtain ⟨u, hu⟩ := hpre
            rw [← hu] at hd
            simp at hd
            subst hd
            unfold collapseNewlines at hu
            split at hu
            · rename_i h2
              have := h2.2
              cases r with
              | nil => simp at this
              | cons e r2 => simp at this ⊢; exact this.1
            · simp at hu
              have he := collapseNewlines_head r
              obtain ⟨v, hv⟩ : ∃ v, collapseNewlines r = '\n' :: v := by
                cases hcr : collapseNewlines r with
                | nil => rw [hcr] at hu; simp at hu
                | cons e v => rw [hcr] at hu; simp at hu; exact ⟨v, by rw [hu.1]⟩
              rw [hv] at he
              cases r with
              | nil => simp at he
              | cons e r2 => simp at he ⊢; exact he.symm
      · exact ih hi
theorem collapseNewlines_other (c : Char) (rest : List Char) (h : c ≠ '\n') :
    collapseNewlines (c :: rest) = c :: collapseNewlines rest := by
  rw [collapseNewlines]
  simp [h]

theorem collapseNewlines_single (c : Char) (rest : List Char) (h : c ≠ '\n') :
    collapseNewlines ('\n' :: c :: rest) = '\n' :: collapseNewlines (c :: rest) := by
  rw [collapseNewlines]
  simp [h]

theorem collapseNewlines_run (k : Nat) (c : Char) (rest : List Char) (h : c ≠ '\n') :
    collapseNewlines (List.replicate (k + 2) '\n' ++ c :: rest)
      = '\n' :: '\n' :: collapseNewlines (c :: rest) := by
  induction k with
  | zero =>
    show collapseNewlines ('\n' :: '\n' :: c :: rest) = _
    rw [collapseNewlines]
    simp [h, collapseNewlines_single c rest h]
  | succ k ih =>
    show collapseNewlines ('\n' :: (List.replicate (k + 2) '\n' ++ c :: rest)) = _
    rw [collapseNewlines]
    have : (List.replicate (k + 2) '\n' ++ c :: rest).take 2 = ['\n', '\n'] := rfl
    simp only [this, and_self, if_true]
    exact ih

theorem collapseNewlines_run_end (k : Nat) :
    collapseNewlines (List.replicate (k + 2) '\n') = ['\n', '\n'] := by
  induction k with
  | zero => rfl
  | succ k ih =>
    show collapseNewlines ('\n' :: List.replicate (k + 2) '\n') = _
    rw [collapseNewlines]
    have : (List.replicate (k + 2) '\n').take 2 = ['\n', '\n'] := rfl
    simp only [this, and_self, if_true]
    exact ih

/-! ## String order -/

theorem unitsLe_total (a b : List Nat) : unitsLe a b = true ∨ unitsLe b a = true := by
  induction a generalizing b with
  | nil => left; simp [unitsLe]
  | cons x xs ih =>
    cases b with
    | nil => right; simp [unitsLe]
    | cons y ys =>
      simp only [unitsLe]
      rcases Nat.lt_trichotomy x y with h | h | h
      · left; simp [h]
      · subst h; simpa using ih ys
      · right; simp [h]

theorem unitsLe_trans (a b c : List Nat) (h1 : unitsLe a b = true) (h2 : unitsLe b c = true) :
    unitsLe a c = true := by
  induction a generalizing b c with
  | nil => simp [unitsLe]
  | cons x xs ih =>
    cases b with
    | nil => simp [unitsLe] at h1
    | cons y ys =>
      cases c with
      | nil => simp [unitsLe] at h2
      | cons z zs =>
        simp only [unitsLe] at h1 h2 ⊢
        split at h1
        · split at h2
          · have : x < z := by omega
            simp [this]
          · split at h2
            · cases h2
            · have : x < z := by omega
              simp [this]
        · split at h1
          · cases h1
          · split at h2
            · have : x < z := by omega
              simp [this]
            · split at h2
              · cases h2
              · have hxz : ¬ x < z := by omega
                have hzx : ¬ z < x := by omega
                simp only [hxz, hzx, if_false]
                exact ih ys zs h1 h2

theorem unitsLe_antisymm (a b : List Nat) (h1 : unitsLe a b = true) (h2 : unitsLe b a = true) :
    a = b := by
  induction a generalizing b with
  | nil =>
    cases b with
    | nil => rfl
    | cons y ys => simp [unitsLe] at h2
  | cons x xs ih =>
    cases b with
    | nil => simp [unitsLe] at h1
    | cons y ys =>
      simp only [unitsLe] at h1 h2
      split at h1
      · rename_i hxy
        have : ¬ y < x := by omega
        simp [this, hxy] at h2
      · split at h1
        · cases h1
        · rename_i h3 h4
          simp only [h3, h4, if_false] at h2
          have : x = y := by omega
          subst this
          rw [ih ys h1 h2]

theorem char_toNat_valid (c : Char) : c.toNat < 0xD800 ∨ (0xDFFF < c.toNat ∧ c.toNat < 0x110000) :=
  c.valid

theorem char_eq_of_toNat_eq {c d : Char} (h : c.toNat = d.toNat) : c = d := by
  apply Char.ext
  apply UInt32.ext
  exact h

theorem utf16_flatten_injective (s t : List Char)
    (h : (s.map utf16Units).flatten = (t.map utf16Units).flatten) : s = t := by
  induction s generalizing t with
  | nil =>
    cases t with
    | nil => rfl
    | cons d ds =>
      simp only [List.map_nil, List.flatten_nil, List.map_cons, List.flatten_cons, utf16Units] at h
      split at h <;> simp at h
  | cons c cs ih =>
    cases t with
    | nil =>
      simp only [List.map_nil, List.flatten_nil, List.map_cons, List.flatten_cons, utf16Units] at h
      split at h <;> simp at h
    | cons d ds =>
      have hc := char_toNat_valid c
      have hd := char_toNat_valid d
      simp only [List.map_cons, List.flatten_cons, utf16Units] at h
      split at h <;> split at h
      · simp only [List.singleton_append, List.cons.injEq] at h
        rw [char_eq_of_toNat_eq h.1, ih ds h.2]
      · simp only [List.singleton_append, List.cons_append, List.nil_append, List.cons.injEq] at h
        omega
      · simp only [List.singleton_append, List.cons_append, List.nil_append, List.cons.injEq] at h
        omega
      · simp only [List.cons_append, List.nil_append, List.cons.injEq] at h
        have : c.toNat = d.toNat := by omega
        rw [char_eq_of_toNat_eq this, ih ds h.2.2]

theorem codeUnits_injective {a b : String} (h : codeUnits a = codeUnits b) : a = b :=
  String.ext (utf16_flatten_injective _ _ h)

instance jsLe_isTotal : IsTotal String jsLe := ⟨fun _ _ => unitsLe_total _ _⟩
instance jsLe_isTrans : IsTrans String jsLe := ⟨fun _ _ _ => unitsLe_trans _ _ _⟩
instance jsLe_isAntisymm : IsAntisymm String jsLe :=
  ⟨fun _ _ h1 h2 => codeUnits_injective (unitsLe_antisymm _ _ h1 h2)⟩

/-! ## Dictionaries and sorting -/

theorem enumerationOrder_perm (l : List String) : List.Perm (enumerationOrder l) l := by
  unfold enumerationOrder
  exact ((List.perm_insertionSort _ _).append_right _).trans (List.filter_append_perm _ _)

theorem Dict.mem_keys {α : Type} (d : Dict α) (n : String) :
    n ∈ d.keys ↔ n ∈ d.entries.map Prod.fst :=
  (enumerationOrder_perm _).mem_iff

theorem Dict.keys_nodup {α : Type} (d : Dict α) : d.keys.Nodup :=
  (enumerationOrder_perm _).nodup_iff.2 d.nodup

theorem Dict.mem_keys_iff_get? {α : Type} (d : Dict α) (n : String) :
    n ∈ d.keys ↔ ∃ v, d.get? n = some v := by
  rw [Dict.mem_keys]
  unfold Dict.get?
  constructor
  · intro h
    rw [List.mem_map] at h
    obtain ⟨e, he, hn⟩ := h
    cases hf : d.entries.find? (fun e => e.1 = n) with
    | none =>
      rw [List.find?_eq_none] at hf
      have := hf e he
      simp [hn] at this
    | some x => exact ⟨x.2, rfl⟩
  · rintro ⟨v, hv⟩
    cases hf : d.entries.find? (fun e => e.1 = n) with
    | none => rw [hf] at hv; cases hv
    | some x =>
      have h1 := List.mem_of_find?_eq_some hf
      have h2 := List.find?_some hf
      rw [List.mem_map]
      exact ⟨x, h1, by simpa using h2⟩

theorem jsSort_perm (l : List String) : List.Perm (jsSort l) l := List.perm_insertionSort _ _

theorem jsSort_sorted (l : List String) : (jsSort l).Sorted jsLe := List.sorted_insertionSort _ _

theorem jsSort_strict (l : List String) (h : l.Nodup) : (jsSort l).Sorted jsLt := by
  have h1 : (jsSort l).Pairwise jsLe := jsSort_sorted l
  have h2 : (jsSort l).Pairwise (fun a b => a ≠ b) := (jsSort_perm l).nodup_iff.2 h
  exact (h1.and h2).imp (fun {a b} hab hba => hab.2 (antisymm hab.1 hba))

theorem foldl_append_texts {α : Type} (f : α → String) (l : List α) (init : String) :
    l.foldl (fun acc x => acc ++ f x) init = init ++ concatTexts (l.map f) := by
  induction l generalizing init with
  | nil => simp [concatTexts]
  | cons a rest ih =>
    simp only [List.foldl_cons, List.map_cons, concatTexts]
    rw [ih, String.append_assoc]

theorem concatTexts_append (A B : List String) :
    concatTexts (A ++ B) = concatTexts A ++ concatTexts B := by
  induction A with
  | nil => simp [concatTexts]
  | cons a A ih =>
    show a ++ concatTexts (A ++ B) = (a ++ concatTexts A) ++ concatTexts B
    rw [ih, String.append_assoc]

theorem allDefsOf_eq (env : Env DB) (st : JavaGen DB) (db : DB) :
    allDefsOf env st db = (globalDefs env st db).1 ++
      concatTexts ((jsSort (funcsOf st.definitions_ 0) ++ jsSort (funcsOf st.definitions_ 1)).map
        (fun name => defText st.definitions_ name ++ "\n\n")) := by
  unfold allDefsOf
  simp only [List.foldl_cons, List.foldl_nil]
  rw [foldl_append_texts, foldl_append_texts, String.append_assoc]
  rw [List.map_append, concatTexts_append]

theorem mem_funcsOf (defs : Option (Dict Def)) (slot : Nat) (n : String) :
    n ∈ funcsOf defs slot ↔
      n ≠ "variables" ∧ ∃ d df, defs = some d ∧ d.get? n = some df ∧ slotOf df = slot := by
  cases defs with
  | none => simp [funcsOf]
  | some d =>
    simp only [funcsOf, List.mem_filter, Dict.mem_keys_iff_get?]
    constructor
    · rintro ⟨⟨v, hv⟩, h⟩
      rw [hv] at h
      simp at h
      exact ⟨h.1, d, v, rfl, hv, h.2⟩
    · rintro ⟨hne, d2, df, hd, hg, hs⟩
      cases hd
      refine ⟨⟨df, hg⟩, ?_⟩
      rw [hg]
      simp [hne, hs]

theorem funcsOf_nodup (defs : Option (Dict Def)) (slot : Nat) : (funcsOf defs slot).Nodup := by
  cases defs with
  | none => simp [funcsOf]
  | some d => exact (Dict.keys_nodup d).filter _

theorem normalizePreamble_eq (allDefs : String) :
    normalizePreamble allDefs
      = String.mk (stripTrailingNewlines (collapseNewlines allDefs.data)) ++ "\n\n\n" := by
  unfold normalizePreamble
  rw [replaceTrailingNewlines_eq]
  rfl

theorem allDefsOf_empty (env : Env DB) (st : JavaGen DB) (db : DB)
    (hg : st.globals_.entries = [])
    (hd : ∀ d, st.definitions_ = some d → d.entries = []) :
    allDefsOf env st db = "" := by
  have hf : ∀ slot, funcsOf st.definitions_ slot = [] := by
    intro slot
    unfold funcsOf
    cases hdef : st.definitions_ with
    | none => rfl
    | some d =>
      have := hd d hdef
      simp [Dict.keys, this, enumerationOrder]
  simp [allDefsOf, globalDefs, Dict.keys, hg, enumerationOrder, hf, jsSort]

/-! ## Initialisation -/

theorem foldlM_addImport (libs : List String) (st : JavaGen DB) (d : Dict String)
    (h : st.imports_ = some d) :
    libs.foldlM addImport st = Except.ok { st with imports_ := some (importsAfter d libs) } := by
  induction libs generalizing st d with
  | nil =>
    cases st
    simp only at h
    subst h
    rfl
  | cons lib rest ih =>
    rw [List.foldlM_cons]
    have h1 : addImport st lib = Except.ok
        { st with imports_ := some (d.set ("import " ++ lib ++ ";") ("import " ++ lib ++ ";")) } := by
      unfold addImport
      rw [h]
    rw [h1]
    exact ih _ _ rfl

theorem foldl_initVariable (env : Env DB) (keys : List String) (s : JavaGen DB) (flag : Bool)
    (hs : s.blocklyTypes_ = BlocklyTypes.emptyArray) :
    (keys.foldl (initVariable env) (s, flag)).1 = { s with variableTypes_ := (keys.foldl
      (fun vt key => protoSet vt key (mapType env (env.emptyArray key)).1) s.variableTypes_) } := by
  induction keys generalizing s flag with
  | nil => rfl
  | cons key rest ih =>
    rw [List.foldl_cons]
    have hstep : initVariable env (s, flag) key =
        ({ s with variableTypes_ :=
            protoSet s.variableTypes_ key (mapType env (env.emptyArray key)).1 },
          flag || (mapType env (env.emptyArray key)).2) := by
      simp only [initVariable, blocklyTypeOf, hs]
    rw [hstep]
    refine (ih _ _ ?_).trans ?_
    · exact hs
    · rfl

theorem init_eq (env : Env DB) (st : JavaGen DB) (ws : Workspace) :
    init env st ws = Except.ok (initState env st ws) := by
  unfold init
  simp only []
  rw [foldlM_addImport st.needImports_ _ Dict.empty rfl]
  simp only [bind, Except.bind, pure, Except.pure]
  have hp : ∀ r : JavaGen DB × Bool, (if r.2 = true then provideVarClass r.1 else r.1) = r.1 := by
    intro r; split <;> rfl
  rw [hp, foldl_initVariable]
  · cases h : st.variableDB_ <;> simp [initState, h]
  · cases h : st.variableDB_ <;> rfl

/-! ## Dictionary updates and imports -/

theorem mem_setEntry_keys {α : Type} (k : String) (v : α) (l : List (String × α)) (x : String) :
    x ∈ (setEntry k v l).map Prod.fst ↔ x = k ∨ x ∈ l.map Prod.fst := by
  induction l with
  | nil => simp [setEntry]
  | cons e rest ih =>
    unfold setEntry
    split
    · rename_i h
      simp only [List.map_cons, List.mem_cons, h]
      tauto
    · simp only [List.map_cons, List.mem_cons, ih]
      tauto

theorem mem_setEntry {α : Type} (k : String) (v : α) (l : List (String × α)) (e : String × α)
    (h : e ∈ setEntry k v l) : e = (k, v) ∨ e ∈ l := by
  induction l with
  | nil => simpa [setEntry] using h
  | cons e0 rest ih =>
    unfold setEntry at h
    split at h
    · simp only [List.mem_cons] at h ⊢
      tauto
    · simp only [List.mem_cons] at h ⊢
      rcases h with h | h
      · tauto
      · rcases ih h with h1 | h1 <;> tauto

theorem Dict.mem_keys_set {α : Type} (d : Dict α) (k : String) (v : α) (x : String) :
    x ∈ (d.set k v).keys ↔ x = k ∨ x ∈ d.keys := by
  rw [Dict.mem_keys, Dict.mem_keys]
  exact mem_setEntry_keys k v d.entries x

theorem Dict.mem_of_get? {α : Type} (d : Dict α) (k : String) (v : α) (h : d.get? k = some v) :
    (k, v) ∈ d.entries := by
  unfold Dict.get? at h
  cases hf : d.entries.find? (fun e => e.1 = k) with
  | none => rw [hf] at h; cases h
  | some x =>
    rw [hf] at h
    have h1 := List.mem_of_find?_eq_some hf
    have h2 := List.find?_some hf
    simp only [Option.map_some', Option.some.injEq] at h
    have h3 : x.1 = k := by simpa using h2
    have : x = (k, v) := by rw [← h3, ← h]
    rw [← this]
    exact h1

theorem filterMap_eq_self {α : Type} (f : α → Option α) (l : List α)
    (h : ∀ x ∈ l, f x = some x) : l.filterMap f = l := by
  induction l with
  | nil => rfl
  | cons a rest ih =>
    rw [List.filterMap_cons, h a (List.mem_cons_self _ _)]
    simp only
    rw [ih (fun x hx => h x (List.mem_cons_of_mem _ hx))]

theorem Dict.values_eq_keys (d : Dict String) (h : ∀ e ∈ d.entries, e.2 = e.1) :
    d.values = d.keys := by
  unfold Dict.values
  apply filterMap_eq_self
  intro k hk
  obtain ⟨v, hv⟩ := (Dict.mem_keys_iff_get? d k).1 hk
  have := h _ (Dict.mem_of_get? d k v hv)
  simp only at this
  rw [hv, this]

theorem importsAfter_append (d : Dict String) (a b : List String) :
    importsAfter (importsAfter d a) b = importsAfter d (a ++ b) := by
  unfold importsAfter
  rw [List.foldl_append]

theorem importsAfter_diag (libs : List String) (d : Dict String)
    (h : ∀ e ∈ d.entries, e.2 = e.1) : ∀ e ∈ (importsAfter d libs).entries, e.2 = e.1 := by
  induction libs generalizing d with
  | nil => exact h
  | cons lib rest ih =>
    apply ih
    intro e he
    rcases mem_setEntry _ _ _ e he with h1 | h1
    · rw [h1]
    · exact h e h1

theorem mem_importsAfter_keys (libs : List String) (d : Dict String) (x : String) :
    x ∈ (importsAfter d libs).keys ↔
      x ∈ d.keys ∨ ∃ lib, lib ∈ libs ∧ x = "import " ++ lib ++ ";" := by
  induction libs generalizing d with
  | nil => simp [importsAfter]
  | cons lib rest ih =>
    show x ∈ (importsAfter (d.set _ _) rest).keys ↔ _
    rw [ih, Dict.mem_keys_set]
    simp only [List.mem_cons]
    constructor
    · rintro ((h | h) | ⟨l, hl, hx⟩)
      · exact Or.inr ⟨lib, Or.inl rfl, h⟩
      · exact Or.inl h
      · exact Or.inr ⟨l, Or.inr hl, hx⟩
    · rintro (h | ⟨l, hl | hl, hx⟩)
      · exact Or.inl (Or.inr h)
      · subst hl; exact Or.inl (Or.inl hx)
      · exact Or.inr ⟨l, hl, hx⟩

theorem Dict.keys_empty {α : Type} : (Dict.empty : Dict α).keys = [] := by
  simp [Dict.keys, Dict.empty, enumerationOrder]

theorem getImports_eq (st : JavaGen DB) (d : Dict String) (h : st.imports_ = some d) :
    getImports st = Except.ok
      (jsJoin "\n" (jsSort (importsAfter d (st.ExtraImports_.getD [])).values),
        { st with imports_ := some (importsAfter d (st.ExtraImports_.getD [])) }) := by
  rcases st with ⟨rw, pf, ei, vt, bt, an, pk, bc, ni, xi, iv, cl, gl, df, fn, im, vdb⟩
  simp only at h
  subst h
  cases xi with
  | none => rfl
  | some extra =>
    unfold getImports
    simp only [Option.getD_some]
    rw [foldlM_addImport extra _ d rfl]
    rfl

/-! ## Auxiliary classes -/

theorem setEntry_keys {α : Type} (k : String) (v : α) (l : List (String × α)) :
    (setEntry k v l).map Prod.fst =
      if k ∈ l.map Prod.fst then l.map Prod.fst else l.map Prod.fst ++ [k] := by
  induction l with
  | nil => simp [setEntry]
  | cons e rest ih =>
    unfold setEntry
    by_cases h : e.1 = k
    · simp [h]
    · have h2 : ¬ k = e.1 := fun h3 => h h3.symm
      simp only [h, if_false, List.map_cons, ih, List.mem_cons, h2, false_or]
      split <;> simp

theorem Dict.get?_set {α : Type} (d : Dict α) (k : String) (v : α) (n : String) :
    (d.set k v).get? n = if n = k then some v else d.get? n := by
  unfold Dict.get? Dict.set
  simp only
  generalize d.entries = l
  induction l with
  | nil =>
    simp only [setEntry, List.find?_cons, List.find?_nil]
    by_cases h : n = k
    · simp [h]
    · have : ¬ k = n := fun h3 => h h3.symm
      simp [h, this]
  | cons e rest ih =>
    unfold setEntry
    by_cases h : e.1 = k
    · simp only [h, if_true, List.find?_cons]
      by_cases h2 : n = k
      · simp [h2]
      · have : ¬ k = n := fun h3 => h2 h3.symm
        simp [h2, this]
    · simp only [h, if_false, List.find?_cons]
      by_cases h2 : e.1 = n
      · have : ¬ n = k := fun h3 => h (h2.trans h3)
        simp [h2, this]
      · simp only [h2, decide_False]
        exact ih

theorem foldl_setExtraClass (regs : List (String × List String)) (st : JavaGen DB) :
    regs.foldl (fun s r => setExtraClass s r.1 r.2) st =
      { st with classes_ := classesAfter st.classes_ regs } := by
  induction regs generalizing st with
  | nil => rfl
  | cons r rest ih =>
    rw [List.foldl_cons, ih]
    rfl

theorem classesAfter_snoc (d : Dict String) (regs : List (String × List String))
    (r : String × List String) :
    classesAfter d (regs ++ [r]) = (classesAfter d regs).set r.1 (classText r.2) := by
  unfold classesAfter
  rw [List.foldl_append]
  rfl

theorem classesAfter_names (regs : List (String × List String)) :
    (classesAfter Dict.empty regs).entries.map Prod.fst = firstRegistered (regs.map Prod.fst) := by
  induction regs using List.reverseRecOn with
  | nil => rfl
  | append_singleton pre r ih =>
    rw [classesAfter_snoc]
    show (setEntry _ _ _).map Prod.fst = _
    rw [setEntry_keys, ih]
    unfold firstRegistered
    rw [List.map_append, List.foldl_append]
    rfl

theorem classesAfter_get? (regs : List (String × List String)) (n : String) :
    (classesAfter Dict.empty regs).get? n =
      (regs.reverse.find? (fun r => r.1 = n)).map (fun r => classText r.2) := by
  induction regs using List.reverseRecOn with
  | nil => rfl
  | append_singleton pre r ih =>
    rw [classesAfter_snoc, Dict.get?_set, List.reverse_append]
    simp only [List.reverse_cons, List.reverse_nil, List.nil_append, List.singleton_append,
      List.find?_cons]
    by_cases h : n = r.1
    · simp [h]
    · have : ¬ r.1 = n := fun h3 => h h3.symm
      simp only [h, if_false, this, decide_False]
      exact ih

theorem classText_ne_empty (lines : List String) : classText lines ≠ "" := by
  intro h
  have := congrArg String.data h
  simp only [classText, String.data_append] at this
  have h2 := (List.append_eq_nil.1 this).2
  exact absurd h2 (by decide)

theorem concatTexts_ne_empty (a : String) (rest : List String) (h : a ≠ "") :
    concatTexts (a :: rest) ≠ "" := by
  intro hc
  apply h
  have := congrArg String.data hc
  simp only [concatTexts, String.data_append] at this
  exact String.ext (List.append_eq_nil.1 this).1

theorem firstRegistered_snoc (l : List String) (n : String) :
    firstRegistered (l ++ [n]) =
      if n ∈ firstRegistered l then firstRegistered l else firstRegistered l ++ [n] := by
  unfold firstRegistered
  rw [List.foldl_append]
  rfl

theorem mem_firstRegistered (l : List String) : ∀ n, n ∈ firstRegistered l ↔ n ∈ l := by
  induction l using List.reverseRecOn with
  | nil => simp [firstRegistered]
  | append_singleton pre x ih =>
    intro n
    rw [firstRegistered_snoc]
    split
    · rename_i hx
      rw [ih, List.mem_append, List.mem_singleton]
      constructor
      · exact Or.inl
      · rintro (h | h)
        · exact h
        · rw [h]; exact (ih x).1 hx
    · rw [List.mem_append, List.mem_append, ih]

theorem enumerationOrder_of_no_index (l : List String) (h : ∀ n ∈ l, isArrayIndex n = false) :
    enumerationOrder l = l := by
  unfold enumerationOrder
  have h1 : l.filter isArrayIndex = [] := by
    rw [List.filter_eq_nil_iff]
    intro a ha
    simp [h a ha]
  have h2 : l.filter (fun k => !isArrayIndex k) = l := by
    rw [List.filter_eq_self]
    intro a ha
    simp [h a ha]
  rw [h1, h2]
  rfl

theorem getClasses_eq (st : JavaGen DB) :
    getClasses st =
      (if concatTexts (st.classes_.keys.map (fun n => (st.classes_.get? n).getD "")) != "" then
        concatTexts (st.classes_.keys.map (fun n => (st.classes_.get? n).getD "")) ++ "\n\n"
       else concatTexts (st.classes_.keys.map (fun n => (st.classes_.get? n).getD ""))) := by
  unfold getClasses
  simp only [foldl_append_texts, String.empty_append]

theorem lastClassText_eq (regs : List (String × List String)) (n : String) :
    ((classesAfter Dict.empty regs).get? n).getD "" = lastClassText regs n := by
  rw [classesAfter_get?]
  unfold lastClassText
  cases regs.reverse.find? (fun r => r.1 = n) <;> rfl

theorem lastClassText_ne_empty (regs : List (String × List String)) (n : String)
    (h : n ∈ regs.map Prod.fst) : lastClassText regs n ≠ "" := by
  unfold lastClassText
  cases hf : regs.reverse.find? (fun r => r.1 = n) with
  | none =>
    rw [List.find?_eq_none] at hf
    rw [List.mem_map] at h
    obtain ⟨r, hr, hn⟩ := h
    have := hf r (List.mem_reverse.2 hr)
    simp [hn] at this
  | some r => exact classText_ne_empty _

/-! ## Globals in `finish` -/

theorem globalLine_eq (env : Env DB) (st : JavaGen DB) (db : DB) (name : String) :
    (globalLine env st db name).1
      = specGlobalLine env st name (env.getName db name env.nameType).1 := by
  unfold globalLine specGlobalLine specInitializer defaultInitializer
  cases hg : (st.globals_.get? name).bind id with
  | none => simp
  | some v =>
    by_cases hv : v = ""
    · simp [hv]
    · simp [hv]

theorem globalDefs_fold (env : Env DB) (st : JavaGen DB) (keys : List String) (acc : String)
    (db : DB) :
    (keys.foldl (fun acc name => let r := globalLine env st acc.2 name; (acc.1 ++ r.1, r.2))
        (acc, db)).1
      = acc ++ concatTexts (List.zipWith (specGlobalLine env st) keys (registryNames env db keys)) := by
  induction keys generalizing acc db with
  | nil => simp [registryNames, concatTexts]
  | cons k rest ih =>
    rw [List.foldl_cons]
    simp only []
    rw [ih, globalLine_eq]
    simp only [registryNames, List.zipWith_cons_cons, concatTexts, String.append_assoc]
    rfl

theorem globalDefs_eq (env : Env DB) (st : JavaGen DB) (db : DB) :
    (globalDefs env st db).1 = concatTexts
      (List.zipWith (specGlobalLine env st) st.globals_.keys
        (registryNames env db st.globals_.keys)) := by
  unfold globalDefs
  rw [globalDefs_fold, String.empty_append]

theorem finishText_eq (env : Env DB) (st : JavaGen DB) (db : DB) (code : String)
    (hdb : st.variableDB_ = some db) :
    finishText env st code = some (normalizePreamble (allDefsOf env st db) ++ code) := by
  unfold finishText finish
  rw [hdb]

/-! ## Assembly in `workspaceToCode` -/

theorem getBaseclass_ok (env : Env DB) (st : JavaGen DB) (db : DB)
    (hdb : st.variableDB_ = some db) :
    ∃ r, getBaseclass env st = Except.ok r ∧ r.2.classes_ = st.classes_ := by
  unfold getBaseclass
  simp only []
  split
  · rw [hdb]
    exact ⟨_, rfl, rfl⟩
  · exact ⟨_, rfl, rfl⟩

theorem getClasses_congr (a b : JavaGen DB) (h : a.classes_ = b.classes_) :
    getClasses a = getClasses b := by
  unfold getClasses
  rw [h]

theorem getClasses_last (st : JavaGen DB) :
    getClasses st = "" ∨ (getClasses st).data.getLast? = some '\n' := by
  unfold getClasses
  simp only []
  split
  · right
    rw [String.data_append]
    show (_ ++ ['\n', '\n']).getLast? = _
    simp
  · rename_i h
    left
    simpa using h

/-! ## A single declaration line -/

theorem collapseNewlines_line (l : List Char) (h : '\n' ∉ l) :
    collapseNewlines (l ++ ['\n']) = l ++ ['\n'] := by
  induction l with
  | nil => rfl
  | cons c rest ih =>
    have hc : c ≠ '\n' := fun hc => h (hc ▸ List.mem_cons_self _ _)
    have hr : '\n' ∉ rest := fun hr => h (List.mem_cons_of_mem _ hr)
    show collapseNewlines (c :: (rest ++ ['\n'])) = _
    unfold collapseNewlines
    simp only [hc, false_and, if_false, ih hr, List.cons_append]

theorem replaceTrailingNewlines_line (l : List Char) (h : '\n' ∉ l) :
    replaceTrailingNewlines (l ++ ['\n']) = l ++ ['\n', '\n', '\n'] := by
  induction l with
  | nil => rfl
  | cons c rest ih =>
    have hc : c ≠ '\n' := fun hc => h (hc ▸ List.mem_cons_self _ _)
    have hr : '\n' ∉ rest := fun hr => h (List.mem_cons_of_mem _ hr)
    show replaceTrailingNewlines (c :: (rest ++ ['\n'])) = _
    unfold replaceTrailingNewlines
    simp only [List.all_cons, hc, decide_False, Bool.false_and, if_false, ih hr, List.cons_append]
    simp

theorem normalizePreamble_line (body : String) (h : '\n' ∉ body.data) :
    normalizePreamble (body ++ "\n") = body ++ "\n\n\n" := by
  unfold normalizePreamble
  apply String.ext
  rw [String.data_append, String.data_append]
  show replaceTrailingNewlines (collapseNewlines (body.data ++ ['\n'])) = body.data ++ ['\n', '\n', '\n']
  rw [collapseNewlines_line _ h, replaceTrailingNewlines_line _ h]

theorem enumerationOrder_singleton (k : String) : enumerationOrder [k] = [k] := by
  unfold enumerationOrder
  cases h : isArrayIndex k <;> simp [List.filter, h]

theorem definitionTexts_empty (st : JavaGen DB)
    (hd : ∀ d, st.definitions_ = some d → d.entries = []) : definitionTexts st = [] := by
  have hf : ∀ slot, funcsOf st.definitions_ slot = [] := by
    intro slot
    unfold funcsOf
    cases hdef : st.definitions_ with
    | none => rfl
    | some d =>
      have := hd d hdef
      simp [Dict.keys, this, enumerationOrder]
  simp [definitionTexts, hf, jsSort]

/-! ## The type table of `init` -/

theorem mapType_table (env : Env DB) :
    mapType env (JSVal.str "Object") = ("Object", false) ∧
    mapType env (JSVal.str "Array") = ("LinkedList", false) ∧
    mapType env (JSVal.str "Map") = ("HashMap", false) ∧
    mapType env (JSVal.str "Var") = ("Var", true) ∧
    mapType env (JSVal.str "Boolean") = ("Boolean", false) ∧
    mapType env (JSVal.str "String") = ("String", false) ∧
    mapType env (JSVal.str "Colour") = ("String", false) ∧
    mapType env (JSVal.str "Number") = ("double", false) ∧
    mapType env JSVal.undefined = ("Object", false) ∧
    mapType env (JSVal.str "") = ("Object", false) := by
  simp [mapType]

theorem mapType_nonempty (env : Env DB) (t : JSVal) : (mapType env t).1 ≠ "" := by
  unfold mapType
  repeat' split
  all_goals first
    | decide
    | (rename_i h; simpa using h)

/-! ## The common step `scrub_` -/

theorem scrub_eq (api : BlockApi Block) (base : BaseGen DB Block)
    (blockToCode : JavaGen DB → Option Block → Except String (String × JavaGen DB))
    (st st1 : JavaGen DB) (block : Block) (code next : String)
    (hnext : blockToCode (resetDecorations st) (api.nextTarget block) = Except.ok (next, st1)) :
    scrub_ api base blockToCode st block code
      = Except.ok (commentCodeOf api base block ++ code ++ indentBy base st.EXTRAINDENT next
          ++ st.POSTFIX, st1) := by
  unfold scrub_
  have h2 : blockToCode { { st with POSTFIX := "" } with EXTRAINDENT := "" }
      (api.nextTarget block) = Except.ok (next, st1) := hnext
  simp only [h2, bind, Except.bind]
  rfl

theorem commentFold_eq (api : BlockApi Block) (base : BaseGen DB Block)
    (inputs : List (Input Block)) (acc : String) :
    inputs.foldl
      (fun commentCode input =>
        if input.type = api.INPUT_VALUE then
          match input.targetBlock with
          | some childBlock =>
            let comment := base.allNestedComments childBlock
            if comment != "" then commentCode ++ base.prefixLines comment "// " else commentCode
          | none => commentCode
        else commentCode)
      acc
    = acc ++ concatTexts
        (((((inputs.filter (fun input => input.type = api.INPUT_VALUE)).filterMap
          (fun input => input.targetBlock)).map base.allNestedComments).filter
            (fun c => c != "")).map (fun c => base.prefixLines c "// ")) := by
  induction inputs generalizing acc with
  | nil => simp [concatTexts]
  | cons input rest ih =>
    rw [List.foldl_cons, ih]
    by_cases ht : input.type = api.INPUT_VALUE
    · cases hb : input.targetBlock with
      | none => simp [ht, hb, List.filter_cons]
      | some child =>
        by_cases hc : base.allNestedComments child = ""
        · simp [ht, hb, hc, List.filter_cons]
        · simp [ht, hb, hc, List.filter_cons, concatTexts, String.append_assoc]
    · simp [ht, List.filter_cons]

/-! ## The walk along next links -/

theorem blockToCode_succ (api : BlockApi Block) (base : BaseGen DB Block) (fuel : Nat)
    (st : JavaGen DB) (block : Block) :
    blockToCode api base (fuel + 1) st (some block) =
      (base.blockGenerator st block).bind
        (fun r => scrub_ api base (blockToCode api base fuel) r.2 block r.1) := by
  rw [blockToCode]
  rfl

theorem scrub_error (api : BlockApi Block) (base : BaseGen DB Block)
    (blockToCode : JavaGen DB → Option Block → Except String (String × JavaGen DB))
    (st : JavaGen DB) (block : Block) (code e : String)
    (hnext : blockToCode (resetDecorations st) (api.nextTarget block) = Except.error e) :
    scrub_ api base blockToCode st block code = Except.error e := by
  unfold scrub_
  have h2 : blockToCode { { st with POSTFIX := "" } with EXTRAINDENT := "" }
      (api.nextTarget block) = Except.error e := hnext
  simp only [h2, bind, Except.bind]

theorem blockToCode_cycle (api : BlockApi Block) (base : BaseGen DB Block) (block : Block)
    (hcycle : api.nextTarget block = some block) (fuel : Nat) (st : JavaGen DB) :
    ∃ e, blockToCode api base fuel st (some block) = Except.error e := by
  induction fuel generalizing st with
  | zero => exact ⟨_, rfl⟩
  | succ fuel ih =>
    rw [blockToCode_succ]
    cases hg : base.blockGenerator st block with
    | error e => exact ⟨e, rfl⟩
    | ok r =>
      obtain ⟨e, he⟩ := ih (resetDecorations r.2)
      refine ⟨e, ?_⟩
      show scrub_ api base (blockToCode api base fuel) r.2 block r.1 = _
      apply scrub_error
      rw [hcycle]
      exact he

/-! ## String coercion -/

theorem GetVariableType_congr (env : Env DB) (a b : JavaGen DB) (name : String)
    (h : a.variableTypes_ = b.variableTypes_) :
    (GetVariableType env a name).1 = (GetVariableType env b name).1 := by
  unfold GetVariableType
  rw [h]
  simp only []
  by_cases hc : (!(protoGet env b.variableTypes_ name).truthy) = true
  · rw [if_pos hc, if_pos hc]
  · rw [if_neg hc, if_neg hc]

theorem convertsAtRuntime_congr (env : Env DB) (api : BlockApi Block) (base : BaseGen DB Block)
    (a b : JavaGen DB) (t : Block) (item : String) (h : a.variableTypes_ = b.variableTypes_) :
    convertsAtRuntime env api base a t item = convertsAtRuntime env api base b t item := by
  unfold convertsAtRuntime
  rw [GetVariableType_congr env a b _ h, GetVariableType_congr env a b item h]

theorem toStringCode_convert (env : Env DB) (api : BlockApi Block) (base : BaseGen DB Block)
    (st st1 : JavaGen DB) (block targetBlock : Block) (name raw : String)
    (hconn : api.getInputTargetBlock block name = some targetBlock)
    (hrender : base.valueToCode st block name ORDER_NONE = Except.ok (raw, st1))
    (hbr : convertsAtRuntime env api base st1 targetBlock (jsTrim raw) = true) :
    toStringCode env api base st block name =
      (addImport st1 "java.text.DecimalFormat").bind (fun s =>
        (addImport s "java.text.NumberFormat").bind (fun s =>
          (base.provideFunction_ s "blocklyToString" blocklyToStringLines).bind (fun r =>
            Except.ok (r.1 ++ "(" ++ jsTrim raw ++ ")", r.2)))) := by
  unfold convertsAtRuntime at hbr
  simp only [Bool.and_eq_true, Bool.not_eq_true'] at hbr
  obtain ⟨⟨⟨h1, h2⟩, h3⟩, h4⟩ := hbr
  unfold toStringCode
  rw [hconn]
  simp only [hrender, bind, Except.bind]
  have h1' : (jsTrim raw != "" && (jsTrim raw).data.head? != some '"') = true := by
    simpa using h1
  rw [h1']
  simp only [if_true]
  rw [h2, h3, h4]
  simp only [Bool.false_eq_true, if_false]
  rfl

set_option maxRecDepth 1000000 in
theorem helperLedger_texts :
    (jsSort (funcsOf (some helperLedger) 0) ++ jsSort (funcsOf (some helperLedger) 1)).map
      (fun name => defText (some helperLedger) name ++ "\n\n")
      = [blocklyToStringBody ++ "\n\n"] := by
  decide

theorem addImport_eq (st : JavaGen DB) (d : Dict String) (lib : String)
    (h : st.imports_ = some d) :
    addImport st lib = Except.ok
      { st with imports_ := some (d.set ("import " ++ lib ++ ";") ("import " ++ lib ++ ";")) } := by
  unfold addImport
  rw [h]

theorem toStringCode_first_use (env : Env DB) (api : BlockApi Block) (base : BaseGen DB Block)
    (st : JavaGen DB) (d : Dict String) (db : DB) (block targetBlock : Block)
    (name raw : String)
    (hprov : base.provideFunction_ = provideFunction env)
    (hd : st.definitions_ = some Dict.empty) (hf : st.functionNames_ = some Dict.empty)
    (hi : st.imports_ = some d) (hdb : st.variableDB_ = some db)
    (hconn : api.getInputTargetBlock block name = some targetBlock)
    (hrender : base.valueToCode st block name ORDER_NONE = Except.ok (raw, st))
    (hbr : convertsAtRuntime env api base st targetBlock (jsTrim raw) = true) :
    ∃ s1, toStringCode env api base st block name
        = Except.ok ((env.getName db "blocklyToString" "generated_function").1
            ++ "(" ++ jsTrim raw ++ ")", s1) ∧
      HelperRegistered st (env.getName db "blocklyToString" "generated_function").1
        (env.getName db "blocklyToString" "generated_function").2 s1 := by
  rw [toStringCode_convert env api base st st block targetBlock name raw hconn hrender hbr,
    addImport_eq st d _ hi]
  simp only [Except.bind]
  rw [addImport_eq _ _ _ rfl]
  simp only [Except.bind, hprov]
  unfold provideFunction
  simp only [hd, hf, hdb]
  have hg : (Dict.empty : Dict Def).get? "blocklyToString" = none := rfl
  rw [hg]
  exact ⟨_, rfl, rfl, rfl, rfl, ⟨_, rfl⟩, rfl, rfl⟩

theorem toStringCode_later_use (env : Env DB) (api : BlockApi Block) (base : BaseGen DB Block)
    (st0 s : JavaGen DB) (f : String) (db1 : DB) (block targetBlock : Block)
    (name raw : String)
    (hprov : base.provideFunction_ = provideFunction env)
    (hreg : HelperRegistered st0 f db1 s)
    (hconn : api.getInputTargetBlock block name = some targetBlock)
    (hrender : base.valueToCode s block name ORDER_NONE = Except.ok (raw, s))
    (hbr : convertsAtRuntime env api base st0 targetBlock (jsTrim raw) = true) :
    ∃ s1, toStringCode env api base s block name
        = Except.ok (f ++ "(" ++ jsTrim raw ++ ")", s1) ∧
      HelperRegistered st0 f db1 s1 := by
  obtain ⟨hd, hf, hdb, ⟨d, hi⟩, hvt, hgl⟩ := hreg
  have hbr2 : convertsAtRuntime env api base s targetBlock (jsTrim raw) = true := by
    rw [convertsAtRuntime_congr env api base s st0 _ _ hvt]
    exact hbr
  rw [toStringCode_convert env api base s s block targetBlock name raw hconn hrender hbr2,
    addImport_eq s d _ hi]
  simp only [Except.bind]
  rw [addImport_eq _ _ _ rfl]
  simp only [Except.bind, hprov]
  unfold provideFunction
  simp only [hd, hf, hdb]
  have hg : helperLedger.get? "blocklyToString" = some (Def.text blocklyToStringBody) := by
    unfold helperLedger
    rw [Dict.get?_set]
    simp
  have hn : (Dict.empty.set "blocklyToString" f : Dict String).get? "blocklyToString"
      = some f := by
    rw [Dict.get?_set]
    simp
  rw [hg]
  simp only [hn, Option.getD_some]
  exact ⟨_, rfl, rfl, rfl, rfl, ⟨_, rfl⟩, hvt, hgl⟩

/-! ## Types recorded by `init` -/

theorem protoSet_get? (vt : Dict String) (k v name : String) (h : name ≠ "__proto__") :
    (protoSet vt k v).get? name = if name = k then some v else vt.get? name := by
  unfold protoSet
  by_cases hk : k = "__proto__"
  · have hne : ¬ name = k := fun h2 => h (h2.trans hk)
    rw [if_pos hk, if_neg hne]
  · simp only [hk, if_false]
    exact Dict.get?_set vt k v name

theorem recordedTypes_get? (env : Env DB) (keys : List String) (vt : Dict String)
    (name : String) (h : name ≠ "__proto__") :
    (keys.foldl (fun vt key => protoSet vt key (mapType env (env.emptyArray key)).1) vt).get? name
      = if name ∈ keys then some (mapType env (env.emptyArray name)).1 else vt.get? name := by
  induction keys generalizing vt with
  | nil => simp
  | cons k rest ih =>
    rw [List.foldl_cons, ih, protoSet_get? _ _ _ _ h]
    by_cases hr : name ∈ rest
    · simp [hr]
    · by_cases hk : name = k
      · subst hk
        simp [hr]
      · simp [hr, hk]

/-! ## The normalised preamble and its source text -/

theorem collapseNewlines_filter (l : List Char) :
    (collapseNewlines l).filter (fun c => c != '\n') = l.filter (fun c => c != '\n') := by
  induction l with
  | nil => rfl
  | cons c rest ih =>
    rw [collapseNewlines]
    split
    · rename_i h
      rw [ih, h.1]
      simp
    · rw [List.filter_cons, List.filter_cons, ih]

theorem stripTrailingNewlines_filter (l : List Char) :
    (stripTrailingNewlines l).filter (fun c => c != '\n') = l.filter (fun c => c != '\n') := by
  induction l with
  | nil => rfl
  | cons c rest ih =>
    rw [stripTrailingNewlines]
    split
    · rename_i h
      symm
      show List.filter (fun c => c != '\n') (c :: rest) = []
      rw [List.filter_eq_nil_iff]
      intro a ha
      have := List.all_eq_true.1 h a ha
      simpa using this
    · rw [List.filter_cons, List.filter_cons, ih]

theorem collapseNewlines_append (u w : List Char) (h : u.getLast? ≠ some '\n') :
    collapseNewlines (u ++ w) = collapseNewlines u ++ collapseNewlines w := by
  induction u with
  | nil => simp [collapseNewlines]
  | cons c rest ih =>
    cases rest with
    | nil =>
      have hc : c ≠ '\n' := by simpa using h
      show collapseNewlines (c :: w) = collapseNewlines [c] ++ _
      rw [collapseNewlines_other c w hc, collapseNewlines_other c [] hc]
      rfl
    | cons d rest2 =>
      have h2 : (d :: rest2).getLast? ≠ some '\n' := by
        rw [List.getLast?_cons_cons] at h
        exact h
      have ih2 := ih h2
      show collapseNewlines (c :: (d :: rest2 ++ w)) = collapseNewlines (c :: d :: rest2) ++ _
      rw [collapseNewlines, collapseNewlines]
      have ht : (d :: rest2 ++ w).take 2 = ['\n', '\n'] ↔ (d :: rest2).take 2 = ['\n', '\n'] := by
        cases rest2 with
        | nil =>
          have hd : d ≠ '\n' := by simpa using h2
          simp [hd]
        | cons e rest3 => simp
      by_cases hcond : c = '\n' ∧ (d :: rest2).take 2 = ['\n', '\n']
      · rw [if_pos ⟨hcond.1, ht.2 hcond.2⟩, if_pos hcond]
        exact ih2
      · have hcond2 : ¬ (c = '\n' ∧ (d :: rest2 ++ w).take 2 = ['\n', '\n']) :=
          fun hx => hcond ⟨hx.1, ht.1 hx.2⟩
        rw [if_neg hcond2, if_neg hcond, ih2]
        rfl

theorem stripTrailingNewlines_append (x y : List Char)
    (h : y.all (fun c => c = '\n') = false) :
    stripTrailingNewlines (x ++ y) = x ++ stripTrailingNewlines y := by
  induction x with
  | nil => rfl
  | cons a rest ih =>
    show stripTrailingNewlines (a :: (rest ++ y)) = _
    rw [stripTrailingNewlines]
    have : (a :: (rest ++ y)).all (fun c => c = '\n') = false := by
      simp only [List.all_cons, List.all_append, h, Bool.and_false]
    rw [this]
    simp only [Bool.false_eq_true, if_false, ih, List.cons_append]

theorem normalized_run (u v : List Char) (k : Nat) (c : Char)
    (hu : u.getLast? ≠ some '\n') (hc : c ≠ '\n') :
    stripTrailingNewlines (collapseNewlines (u ++ List.replicate (k + 2) '\n' ++ c :: v))
      = collapseNewlines u ++ '\n' :: '\n' :: stripTrailingNewlines (collapseNewlines (c :: v)) := by
  rw [List.append_assoc, collapseNewlines_append u _ hu, collapseNewlines_run k c v hc]
  have hall : ('\n' :: '\n' :: collapseNewlines (c :: v)).all (fun x => x = '\n') = false := by
    rw [collapseNewlines_other c v hc]
    simp [hc]
  rw [stripTrailingNewlines_append _ _ hall]
  have h2 : (collapseNewlines (c :: v)).all (fun x => x = '\n') = false := by
    rw [collapseNewlines_other c v hc]
    simp [hc]
  show _ ++ stripTrailingNewlines (['\n', '\n'] ++ collapseNewlines (c :: v)) = _
  rw [stripTrailingNewlines_append _ _ h2]
  rfl

/-! ## Quoting of numbers -/

/-- When the rendered expression, trimmed, is a pure number (not empty, not
starting with a double quote) and the target block is not a `variables_get` block of a variable
whose tracked type is `Var`, `toStringCode` returns the number between double quotes and the
generator as the rendering left it. -/
theorem toStringCode_number_unless_var (env : Env DB) (api : BlockApi Block) (base : BaseGen DB Block)
    (st st1 : JavaGen DB) (block targetBlock : Block) (name raw : String)
    (hconn : api.getInputTargetBlock block name = some targetBlock)
    (hrender : base.valueToCode st block name ORDER_NONE = Except.ok (raw, st1))
    (hnum : base.isNumber (jsTrim raw) = true)
    (hne : jsTrim raw ≠ "") (hq : (jsTrim raw).data.head? ≠ some '"')
    (hvar : ¬ (api.type targetBlock = "variables_get" ∧
      (GetVariableType env st1 ((api.procedurePrefix_ targetBlock).toText ++
        api.getFieldValue targetBlock "VAR")).1 = JSVal.str "Var")) :
    toStringCode env api base st block name
      = Except.ok ("\"" ++ jsTrim raw ++ "\"", st1) := by
  unfold toStringCode
  rw [hconn]
  simp only [hrender, bind, Except.bind]
  have hc : (jsTrim raw != "" && (jsTrim raw).data.head? != some '"') = true := by
    simp [hne, hq]
  rw [hc]
  simp only [if_true]
  have hv : (decide (api.type targetBlock = "variables_get") &&
      decide ((GetVariableType env st1 ((api.procedurePrefix_ targetBlock).toText ++
        api.getFieldValue targetBlock "VAR")).1 = JSVal.str "Var")) = false := by
    by_contra hx
    simp only [Bool.not_eq_false, Bool.and_eq_true, decide_eq_true_eq] at hx
    exact hvar hx
  rw [hv, hnum]
  rfl



/-- A definition whose text holds three blank lines is rendered by `finish` with one. -/
theorem finish_collapses_blank_lines :
    finishText plainEnv
      { passGen with definitions_ := some (Dict.empty.set "f" (Def.text "void f()\n\n\n\n// end")) }
      "x;\n" = some "void f()\n\n// end\n\n\nx;\n" := by
  decide

/-! ## The claims -/

/-- C1: `finish(code)` is `P ++ "\n\n\n" ++ code`, where `P` is the rendered preamble (the
declarations of the globals, then the definitions) with every run of two or more newlines
replaced by two newlines and the trailing newlines removed.  `P` has no run of three newlines and
does not end with a newline; it keeps every character other than a newline, in order; a run of
two or more newlines inside the rendered preamble stands in `P` as exactly two newlines, that is
one blank line; with an empty ledger `P` is empty. -/
theorem finish_preamble_shape (env : Env DB) (st : JavaGen DB) (db : DB) (code : String)
    (hdb : st.variableDB_ = some db) :
    ∃ P st1, finish env st code = Except.ok (P ++ "\n\n\n" ++ code, st1) ∧
      P.data = stripTrailingNewlines (collapseNewlines (renderedPreamble env st db).data) ∧
      ¬ ("\n\n\n".data <:+: P.data) ∧
      P.data.getLast? ≠ some '\n' ∧
      P.data.filter (fun c => c != '\n')
        = (renderedPreamble env st db).data.filter (fun c => c != '\n') ∧
      (∀ (u v : List Char) (k : Nat) (c : Char),
        (renderedPreamble env st db).data = u ++ List.replicate (k + 2) '\n' ++ c :: v →
        u.getLast? ≠ some '\n' → c ≠ '\n' →
        P.data = collapseNewlines u ++ '\n' :: '\n' ::
          stripTrailingNewlines (collapseNewlines (c :: v))) ∧
      (st.globals_.entries = [] → (∀ d, st.definitions_ = some d → d.entries = []) → P = "") := by
  have hall : allDefsOf env st db = renderedPreamble env st db := by
    rw [allDefsOf_eq, globalDefs_eq]
    rfl
  refine ⟨String.mk (stripTrailingNewlines (collapseNewlines (allDefsOf env st db).data)),
    { st with definitions_ := none, functionNames_ := none,
              variableDB_ := some (env.resetNames (globalDefs env st db).2) },
    ?_, ?_, ?_, ?_, ?_, ?_, ?_⟩
  · unfold finish
    rw [hdb]
    simp only [normalizePreamble_eq]
  · rw [hall]
  · intro h
    exact collapseNewlines_no_triple _ (h.trans (stripTrailingNewlines_initial _).isInfix)
  · exact stripTrailingNewlines_getLast _
  · rw [← hall]
    show (stripTrailingNewlines (collapseNewlines (allDefsOf env st db).data)).filter _ = _
    rw [stripTrailingNewlines_filter, collapseNewlines_filter]
  · intro u v k c hsplit hu hc
    show stripTrailingNewlines (collapseNewlines (allDefsOf env st db).data) = _
    rw [hall, hsplit]
    exact normalized_run u v k c hu hc
  · intro hg hd
    rw [allDefsOf_empty env st db hg hd]
    rfl

/-- C1, witness: the shape of `finish` on the generator `demoGen` and the body `x;`. -/
theorem finish_preamble_shape_witness :
    demoGen.variableDB_ = some () ∧
    ∃ P st1, finish plainEnv demoGen "x;\n" = Except.ok (P ++ "\n\n\n" ++ "x;\n", st1) ∧
      P.data = stripTrailingNewlines (collapseNewlines (renderedPreamble plainEnv demoGen ()).data) ∧
      ¬ ("\n\n\n".data <:+: P.data) ∧
      P.data.getLast? ≠ some '\n' ∧
      P.data.filter (fun c => c != '\n')
        = (renderedPreamble plainEnv demoGen ()).data.filter (fun c => c != '\n') ∧
      (∀ (u v : List Char) (k : Nat) (c : Char),
        (renderedPreamble plainEnv demoGen ()).data = u ++ List.replicate (k + 2) '\n' ++ c :: v →
        u.getLast? ≠ some '\n' → c ≠ '\n' →
        P.data = collapseNewlines u ++ '\n' :: '\n' ::
          stripTrailingNewlines (collapseNewlines (c :: v))) ∧
      (demoGen.globals_.entries = [] →
        (∀ d, demoGen.definitions_ = some d → d.entries = []) → P = "") :=
  ⟨rfl, finish_preamble_shape plainEnv demoGen () "x;\n" rfl⟩

/-- C2 (amended): the definitions other than the one named `variables` are emitted after the
globals, the static ones before the instance ones, each group in strictly ascending order of the
registration names, every such definition once. -/
theorem finish_definition_order (env : Env DB) (st : JavaGen DB) (db : DB) (code : String)
    (hdb : st.variableDB_ = some db) :
    ∃ statics instances : List String,
      finishText env st code = some (normalizePreamble ((globalDefs env st db).1 ++
          concatTexts ((statics ++ instances).map
            (fun name => defText st.definitions_ name ++ "\n\n"))) ++ code) ∧
      (∀ n, n ∈ statics ↔ n ≠ "variables" ∧
        ∃ d df, st.definitions_ = some d ∧ d.get? n = some df ∧ slotOf df = 0) ∧
      (∀ n, n ∈ instances ↔ n ≠ "variables" ∧
        ∃ d df, st.definitions_ = some d ∧ d.get? n = some df ∧ slotOf df = 1) ∧
      statics.Sorted jsLt ∧ instances.Sorted jsLt := by
  refine ⟨jsSort (funcsOf st.definitions_ 0), jsSort (funcsOf st.definitions_ 1), ?_, ?_, ?_,
    jsSort_strict _ (funcsOf_nodup _ _), jsSort_strict _ (funcsOf_nodup _ _)⟩
  · unfold finishText finish
    rw [hdb]
    simp only [allDefsOf_eq]
  · intro n
    rw [(jsSort_perm _).mem_iff, mem_funcsOf]
  · intro n
    rw [(jsSort_perm _).mem_iff, mem_funcsOf]

/-- C2, witness: the order of the definitions of `demoGen`. -/
theorem finish_definition_order_witness :
    demoGen.variableDB_ = some () ∧
    ∃ statics instances : List String,
      finishText plainEnv demoGen "x;\n" = some (normalizePreamble
          ((globalDefs plainEnv demoGen ()).1 ++
            concatTexts ((statics ++ instances).map
              (fun name => defText demoGen.definitions_ name ++ "\n\n"))) ++ "x;\n") ∧
      (∀ n, n ∈ statics ↔ n ≠ "variables" ∧
        ∃ d df, demoGen.definitions_ = some d ∧ d.get? n = some df ∧ slotOf df = 0) ∧
      (∀ n, n ∈ instances ↔ n ≠ "variables" ∧
        ∃ d df, demoGen.definitions_ = some d ∧ d.get? n = some df ∧ slotOf df = 1) ∧
      statics.Sorted jsLt ∧ instances.Sorted jsLt :=
  ⟨rfl, finish_definition_order plainEnv demoGen () "x;\n" rfl⟩

/-- C2, counterexample: a ledger whose only definition is the text `int unused;` registered under
the name `variables`.  The text is not static, so the claim counts it as an instance definition
that is emitted once; `finish` emits nothing for it. -/
theorem finish_omits_variables_definition :
    slotOf (Def.text "int unused;") = 1 ∧
    variablesOnlyGen.definitions_.bind (fun d => d.keys.head?) = some "variables" ∧
    finishText plainEnv variablesOnlyGen "" = some "\n\n\n" := by
  decide

/-- C3: every global is rendered by `finish` as `protected <type> <safeName><initializer>;`
followed by a newline, where the initializer is the supplied one when it is non-null and
non-empty and otherwise the default for the resolved type (`Var`, `Boolean`, `String`, else
none). -/
theorem finish_global_declarations (env : Env DB) (st : JavaGen DB) (db : DB) (code : String)
    (hdb : st.variableDB_ = some db) :
    finishText env st code = some (normalizePreamble
      (concatTexts (List.zipWith
          (fun name safeName =>
            "protected " ++ (GetVariableType env st name).1.toText ++ " " ++ safeName ++
              specInitializer ((st.globals_.get? name).bind id) (GetVariableType env st name).1
              ++ ";\n")
          st.globals_.keys (registryNames env db st.globals_.keys))
        ++ concatTexts (definitionTexts st)) ++ code) := by
  rw [finishText_eq env st db code hdb, allDefsOf_eq, globalDefs_eq]
  rfl

/-- C3, witness: the declarations of the two globals of `demoGen`. -/
theorem finish_global_declarations_witness :
    demoGen.variableDB_ = some () ∧
    finishText plainEnv demoGen "x;\n" = some (normalizePreamble
      (concatTexts (List.zipWith
          (fun name safeName =>
            "protected " ++ (GetVariableType plainEnv demoGen name).1.toText ++ " " ++ safeName ++
              specInitializer ((demoGen.globals_.get? name).bind id)
                (GetVariableType plainEnv demoGen name).1
              ++ ";\n")
          demoGen.globals_.keys (registryNames plainEnv () demoGen.globals_.keys))
        ++ concatTexts (definitionTexts demoGen)) ++ "x;\n") :=
  ⟨rfl, finish_global_declarations plainEnv demoGen () "x;\n" rfl⟩

/-- C4 (amended): when the global table holds the single entry `name` without initializer, the
recorded type of `name` is `Boolean`, the ledger has no definition and the registry identifier of
`name` has no newline, `finish` applied to the naked-value line of `line` returns the declaration
`protected Boolean <name> = false;`, the separator of three newlines, and the single statement
line `line;`. -/
theorem finish_boolean_global (env : Env DB) (st : JavaGen DB) (db : DB) (name line : String)
    (hdb : st.variableDB_ = some db)
    (hg : st.globals_.entries = [(name, none)])
    (ht : st.variableTypes_.get? name = some "Boolean")
    (hd : ∀ d, st.definitions_ = some d → d.entries = [])
    (hn : '\n' ∉ (env.getName db name env.nameType).1.data) :
    finishText env st (scrubNakedValue line)
      = some ("protected Boolean " ++ (env.getName db name env.nameType).1 ++ " = false;"
          ++ "\n\n\n" ++ line ++ ";\n") := by
  have hk : st.globals_.keys = [name] := by
    unfold Dict.keys
    rw [hg]
    exact enumerationOrder_singleton name
  have hty : (GetVariableType env st name).1 = JSVal.str "Boolean" := by
    unfold GetVariableType protoGet
    rw [ht]
    rfl
  have hgl : (st.globals_.get? name).bind id = none := by
    unfold Dict.get?
    rw [hg]
    simp
  have hall : allDefsOf env st db
      = ("protected Boolean " ++ (env.getName db name env.nameType).1 ++ " = false;") ++ "\n" := by
    rw [allDefsOf_eq, globalDefs_eq, hk]
    show concatTexts (List.zipWith (specGlobalLine env st) [name] (registryNames env db [name]))
      ++ concatTexts (definitionTexts st) = _
    rw [definitionTexts_empty st hd]
    simp only [registryNames, List.zipWith_cons_cons, List.zipWith_nil_right, concatTexts,
      specGlobalLine, hty, hgl, specInitializer, defaultInitializer, JSVal.toText,
      String.append_empty]
    apply String.ext
    simp only [String.data_append]
    simp only [List.append_assoc]
    rfl
  rw [finishText_eq env st db _ hdb, hall, normalizePreamble_line]
  · unfold scrubNakedValue
    rw [String.append_assoc _ line ";\n"]
  · intro hmem
    rw [String.data_append, String.data_append, List.mem_append, List.mem_append] at hmem
    rcases hmem with (h | h) | h
    · exact absurd h (by decide)
    · exact hn h
    · exact absurd h (by decide)

/-- C4, witness: the declaration and statement line for the global `flag` of `boolGlobalGen`. -/
theorem finish_boolean_global_witness :
    boolGlobalGen.variableDB_ = some () ∧
    boolGlobalGen.globals_.entries = [("flag", none)] ∧
    boolGlobalGen.variableTypes_.get? "flag" = some "Boolean" ∧
    (∀ d, boolGlobalGen.definitions_ = some d → d.entries = []) ∧
    '\n' ∉ (plainEnv.getName () "flag" plainEnv.nameType).1.data ∧
    finishText plainEnv boolGlobalGen (scrubNakedValue "flag")
      = some ("protected Boolean " ++ (plainEnv.getName () "flag" plainEnv.nameType).1
          ++ " = false;" ++ "\n\n\n" ++ "flag" ++ ";\n") :=
  have hd : ∀ d, boolGlobalGen.definitions_ = some d → d.entries = [] := by
    intro d h
    cases h
    rfl
  ⟨rfl, rfl, by decide, hd, by decide,
    finish_boolean_global plainEnv boolGlobalGen () "flag" "flag" rfl rfl (by decide) hd
      (by decide)⟩

/-- C4, counterexample: a pass over a workspace whose only variable `flag` has the source type
`Boolean`: `init`, the registration `setGlobalVar(block, "flag", null)`, then `finish` on the
naked-value line `flag;`.  The text has no field declaration at all; and on a generator that does
hold the global and the type `Boolean` the declaration reads `protected Boolean flag = false;`,
not `protected boolean flag = false;`. -/
theorem compiled_boolean_global_text :
    (match init plainEnv (freshGen Unit) ⟨[("flag", JSVal.str "Boolean")]⟩ with
      | Except.ok st =>
        finishText plainEnv (setGlobalVar st () "flag" none) (scrubNakedValue "flag")
      | Except.error _ => none) = some "\n\n\nflag;\n" ∧
    finishText plainEnv boolGlobalGen (scrubNakedValue "flag")
      = some "protected Boolean flag = false;\n\n\nflag;\n" := by
  decide

/-- C5, evaluation at the failing input: after `setGlobalVar(block, "count", "0")` in a fresh
pass the global table has no entry for `count`, and `finish` renders an empty preamble. -/
theorem setGlobalVar_records_nothing :
    (setGlobalVar passGen () "count" (some "0")).globals_.get? "count" = none ∧
    finishText plainEnv (setGlobalVar passGen () "count" (some "0")) "" = some "\n\n\n" := by
  decide

/-- C6: after `init` and any sequence of `addImport` calls, `getImports` returns the lines
`import <lib>;` joined by newlines, in strictly ascending order, one line for each distinct
library among the default imports, the libraries added and the caller's extra imports. -/
theorem getImports_sorted_distinct (env : Env DB) (st : JavaGen DB) (ws : Workspace)
    (libs : List String) :
    ∃ st0 st1 st2 lines,
      init env st ws = Except.ok st0 ∧
      libs.foldlM addImport st0 = Except.ok st1 ∧
      getImports st1 = Except.ok (jsJoin "\n" lines, st2) ∧
      lines.Sorted jsLt ∧
      ∀ line, line ∈ lines ↔
        ∃ lib, lib ∈ st.needImports_ ++ libs ++ st.ExtraImports_.getD [] ∧
          line = "import " ++ lib ++ ";" := by
  have h0 : (initState env st ws).imports_ = some (importsAfter Dict.empty st.needImports_) := rfl
  have h1 := foldlM_addImport libs (initState env st ws) _ h0
  have h2 := getImports_eq
    { initState env st ws with
      imports_ := some (importsAfter (importsAfter Dict.empty st.needImports_) libs) } _ rfl
  refine ⟨_, _, _, _, init_eq env st ws, h1, h2, ?_, ?_⟩
  · apply jsSort_strict
    rw [Dict.values_eq_keys]
    · exact Dict.keys_nodup _
    · repeat apply importsAfter_diag
      intro e he
      cases he
  · intro line
    rw [(jsSort_perm _).mem_iff, Dict.values_eq_keys]
    · show line ∈ (importsAfter (importsAfter (importsAfter Dict.empty st.needImports_) libs)
        (st.ExtraImports_.getD [])).keys ↔ _
      rw [importsAfter_append, importsAfter_append, mem_importsAfter_keys, Dict.keys_empty]
      simp
    · repeat apply importsAfter_diag
      intro e he
      cases he

/-- C7: when the base pass returns `code` and leaves `imports_` and `variableDB_` in place,
`workspaceToCode` returns `imports ++ "\n\n" ++ code ++ "\n" ++ classes`, with `imports` the result
of `getImports` and `classes` the result of `getClasses` on the state after that pass; the text
ends with a newline. -/
theorem workspaceToCode_assembly (env : Env DB)
    (base : JavaGen DB → Workspace → Except String (String × JavaGen DB))
    (st st1 : JavaGen DB) (ws : Workspace) (code : String) (d : Dict String) (db : DB)
    (hbase : base st ws = Except.ok (code, st1))
    (himp : st1.imports_ = some d) (hdb : st1.variableDB_ = some db) :
    ∃ imports st2 st3,
      getImports st1 = Except.ok (imports, st2) ∧
      workspaceToCode env base st ws
        = Except.ok (imports ++ "\n\n" ++ code ++ "\n" ++ getClasses st1, st3) ∧
      (imports ++ "\n\n" ++ code ++ "\n" ++ getClasses st1).data.getLast? = some '\n' := by
  have hi := getImports_eq st1 d himp
  obtain ⟨r, hr, hc⟩ := getBaseclass_ok env
    { st1 with imports_ := some (importsAfter d (st1.ExtraImports_.getD [])) } db hdb
  refine ⟨_, _, r.2, hi, ?_, ?_⟩
  · unfold workspaceToCode
    rw [hbase]
    simp only [bind, Except.bind]
    rw [hi]
    simp only []
    rw [hr]
    simp only [pure, Except.pure]
    rw [getClasses_congr r.2 st1 hc, String.append_assoc (_ ++ "\n\n") code "\n"]
  · rcases getClasses_last st1 with h | h
    · rw [h, String.append_empty, String.data_append]
      exact List.getLast?_concat _
    · rw [String.data_append, List.getLast?_append, h]
      rfl

/-- C7, witness: the assembly over the base pass `demoBase` on the empty workspace. -/
theorem workspaceToCode_assembly_witness :
    demoBase (freshGen Unit) ⟨[]⟩ = Except.ok ("\n\n\nflag;\n", afterPassGen) ∧
    afterPassGen.imports_ = some Dict.empty ∧
    afterPassGen.variableDB_ = some () ∧
    ∃ imports st2 st3,
      getImports afterPassGen = Except.ok (imports, st2) ∧
      workspaceToCode plainEnv demoBase (freshGen Unit) ⟨[]⟩
        = Except.ok (imports ++ "\n\n" ++ "\n\n\nflag;\n" ++ "\n" ++ getClasses afterPassGen,
            st3) ∧
      (imports ++ "\n\n" ++ "\n\n\nflag;\n" ++ "\n" ++ getClasses afterPassGen).data.getLast?
        = some '\n' :=
  ⟨rfl, rfl, rfl,
    workspaceToCode_assembly plainEnv demoBase (freshGen Unit) afterPassGen ⟨[]⟩
      "\n\n\nflag;\n" Dict.empty () rfl rfl rfl⟩

/-- C8 (amended): after `init` and the registrations `regs`, `getClasses` returns the class texts
(for each name the text last registered) in the enumeration order of the names, followed by two
newlines, and the empty string when nothing was registered; the enumeration order is the order
of first registration when no name is an array index. -/
theorem getClasses_enumeration_order (env : Env DB) (st : JavaGen DB) (ws : Workspace)
    (regs : List (String × List String)) :
    ∃ st0, init env st ws = Except.ok st0 ∧
      getClasses (regs.foldl (fun s r => setExtraClass s r.1 r.2) st0) =
        (if regs = [] then ""
         else concatTexts ((enumerationOrder (firstRegistered (regs.map Prod.fst))).map
            (lastClassText regs)) ++ "\n\n") ∧
      ((∀ r ∈ regs, isArrayIndex r.1 = false) →
        enumerationOrder (firstRegistered (regs.map Prod.fst))
          = firstRegistered (regs.map Prod.fst)) := by
  refine ⟨initState env st ws, init_eq env st ws, ?_, ?_⟩
  · have hD : getClasses (regs.foldl (fun s r => setExtraClass s r.1 r.2) (initState env st ws))
        = (if concatTexts ((classesAfter Dict.empty regs).keys.map
              (fun n => ((classesAfter Dict.empty regs).get? n).getD "")) != "" then
            concatTexts ((classesAfter Dict.empty regs).keys.map
              (fun n => ((classesAfter Dict.empty regs).get? n).getD "")) ++ "\n\n"
          else concatTexts ((classesAfter Dict.empty regs).keys.map
              (fun n => ((classesAfter Dict.empty regs).get? n).getD ""))) := by
      rw [foldl_setExtraClass, getClasses_eq]
      rfl
    rw [hD]
    simp only [lastClassText_eq]
    have hk : (classesAfter Dict.empty regs).keys
        = enumerationOrder (firstRegistered (regs.map Prod.fst)) := by
      unfold Dict.keys
      rw [classesAfter_names]
    rw [hk]
    by_cases hr : regs = []
    · subst hr
      rfl
    · rw [if_neg hr]
      cases hl : enumerationOrder (firstRegistered (regs.map Prod.fst)) with
      | nil =>
        exfalso
        cases regs with
        | nil => exact hr rfl
        | cons r rest =>
          have hm : r.1 ∈ enumerationOrder (firstRegistered ((r :: rest).map Prod.fst)) := by
            rw [(enumerationOrder_perm _).mem_iff, mem_firstRegistered]
            simp
          rw [hl] at hm
          cases hm
      | cons a rest =>
        have ha : a ∈ regs.map Prod.fst := by
          rw [← mem_firstRegistered, ← (enumerationOrder_perm _).mem_iff, hl]
          exact List.mem_cons_self _ _
        have hne : concatTexts ((a :: rest).map (lastClassText regs)) ≠ "" :=
          concatTexts_ne_empty (lastClassText regs a) (rest.map (lastClassText regs))
            (lastClassText_ne_empty regs a ha)
        rw [List.map_cons] at hne ⊢
        simp [hne]
  · intro h
    apply enumerationOrder_of_no_index
    intro n hn
    rw [mem_firstRegistered, List.mem_map] at hn
    obtain ⟨r, hr, rfl⟩ := hn
    exact h r hr

/-- C8, counterexample: the class `b` is registered first and the class `1` second; `getClasses`
returns the text of `1` first. -/
theorem getClasses_index_name_first :
    getClasses (setExtraClass (setExtraClass passGen "b" ["class b"]) "1" ["class one"])
      = "class one\nclass b\n\n\n" := by
  decide

/-- C9, evaluation at the failing input: for a workspace whose variable `items` has the source
type `Array`, `init` records `Object`, not `LinkedList`. -/
theorem init_records_object_for_array :
    (match init plainEnv (freshGen Unit) ⟨[("items", JSVal.str "Array")]⟩ with
      | Except.ok st => some (GetVariableType plainEnv st "items").1
      | Except.error _ => none) = some (JSVal.str "Object") := by
  decide

/-- C10, evaluation at the failing input: after `init` on a workspace without a variable
`constructor`, `GetVariableType("constructor")` returns the function inherited from
`Object.prototype`, not a type string. -/
theorem GetVariableType_inherited_member :
    (match init plainEnv (freshGen Unit) ⟨[("total", JSVal.str "Number")]⟩ with
      | Except.ok st => some (GetVariableType plainEnv st "constructor").1
      | Except.error _ => none)
      = some (JSVal.object "function Object() \x7b [native code] \x7d") := by
  decide


/-- C11: when the input holds no block (or does not exist), `toStringCode` returns the empty
string and the generator unchanged, so the import set and the ledger are as before. -/
theorem toStringCode_unconnected (env : Env DB) (api : BlockApi Block) (base : BaseGen DB Block)
    (st : JavaGen DB) (block : Block) (name : String)
    (h : api.getInputTargetBlock block name = none) :
    toStringCode env api base st block name = Except.ok ("", st) := by
  unfold toStringCode
  rw [h]


/-- C11, witness: the input `TEXT` of block 28 of `plainBlocks` holds no block. -/
theorem toStringCode_unconnected_witness :
    plainBlocks.getInputTargetBlock 28 "TEXT" = none ∧
    toStringCode plainEnv plainBlocks plainBase typedGen 28 "TEXT" = Except.ok ("", typedGen) :=
  ⟨rfl, toStringCode_unconnected plainEnv plainBlocks plainBase typedGen 28 "TEXT" rfl⟩

/-- C12: when the rendered expression, trimmed, is empty or begins with a double quote,
`toStringCode` returns the trimmed text and the generator exactly as the rendering left it: it
adds no import and no definition of its own. -/
theorem toStringCode_literal (env : Env DB) (api : BlockApi Block) (base : BaseGen DB Block)
    (st st1 : JavaGen DB) (block targetBlock : Block) (name raw : String)
    (hconn : api.getInputTargetBlock block name = some targetBlock)
    (hrender : base.valueToCode st block name ORDER_NONE = Except.ok (raw, st1))
    (hlit : jsTrim raw = "" ∨ (jsTrim raw).data.head? = some '"') :
    toStringCode env api base st block name = Except.ok (jsTrim raw, st1) := by
  unfold toStringCode
  rw [hconn]
  simp only [hrender, bind, Except.bind]
  have hc : (jsTrim raw != "" && (jsTrim raw).data.head? != some '"') = false := by
    rcases hlit with h | h
    · simp [h]
    · simp [h]
  rw [hc]
  rfl


/-- C12, witness: the input `TEXT` of block 26 of `plainBlocks` renders as the literal
`"hi"`. -/
theorem toStringCode_literal_witness :
    plainBlocks.getInputTargetBlock 26 "TEXT" = some 27 ∧
    plainBase.valueToCode typedGen 26 "TEXT" ORDER_NONE = Except.ok ("\"hi\"", typedGen) ∧
    (jsTrim "\"hi\"" = "" ∨ (jsTrim "\"hi\"").data.head? = some '"') ∧
    toStringCode plainEnv plainBlocks plainBase typedGen 26 "TEXT"
      = Except.ok (jsTrim "\"hi\"", typedGen) :=
  ⟨rfl, rfl, Or.inr (by decide),
    toStringCode_literal plainEnv plainBlocks plainBase typedGen typedGen 26 27 "TEXT" "\"hi\""
      rfl rfl (Or.inr (by decide))⟩

/-- C13: when the rendered expression, trimmed, is a pure number (not empty, not starting with
a double quote), `toStringCode` returns the number between double quotes and the generator as
the rendering left it, without a conversion call.  A `variables_get` block renders the registry
identifier of its variable, which is not a pure number: that is the hypothesis `hgetter`. -/
theorem toStringCode_number (env : Env DB) (api : BlockApi Block) (base : BaseGen DB Block)
    (st st1 : JavaGen DB) (block targetBlock : Block) (name raw : String)
    (hconn : api.getInputTargetBlock block name = some targetBlock)
    (hrender : base.valueToCode st block name ORDER_NONE = Except.ok (raw, st1))
    (hnum : base.isNumber (jsTrim raw) = true)
    (hne : jsTrim raw ≠ "") (hq : (jsTrim raw).data.head? ≠ some '"')
    (hgetter : api.type targetBlock = "variables_get" → base.isNumber (jsTrim raw) = false) :
    toStringCode env api base st block name
      = Except.ok ("\"" ++ jsTrim raw ++ "\"", st1) := by
  apply toStringCode_number_unless_var env api base st st1 block targetBlock name raw hconn
    hrender hnum hne hq
  rintro ⟨htype, _⟩
  rw [hgetter htype] at hnum
  cases hnum

/-- C13, witness: the input `TEXT` of block 24 of `plainBlocks` holds a number block that
renders as `42`. -/
theorem toStringCode_number_witness :
    plainBlocks.getInputTargetBlock 24 "TEXT" = some 25 ∧
    plainBase.valueToCode typedGen 24 "TEXT" ORDER_NONE = Except.ok ("42", typedGen) ∧
    plainBase.isNumber (jsTrim "42") = true ∧
    jsTrim "42" ≠ "" ∧ (jsTrim "42").data.head? ≠ some '"' ∧
    (plainBlocks.type 25 = "variables_get" → plainBase.isNumber (jsTrim "42") = false) ∧
    toStringCode plainEnv plainBlocks plainBase typedGen 24 "TEXT"
      = Except.ok ("\"" ++ jsTrim "42" ++ "\"", typedGen) :=
  ⟨rfl, rfl, by decide, by decide, by decide, by decide,
    toStringCode_number plainEnv plainBlocks plainBase typedGen typedGen 24 25 "TEXT" "42"
      rfl rfl (by decide) (by decide) (by decide) (by decide)⟩

/-- C14 (amended): three call sites whose values are converted at run time (the text is not a
quoted literal, not a number, and the tracked type is not `Var`), called one after the other in a
pass whose ledger is empty, all return a call of the same helper identifier, and afterwards the
ledger holds the helper `blocklyToString` and nothing else, so that `finish` renders its body
once. -/
theorem toStringCode_helper_once (env : Env DB) (api : BlockApi Block) (base : BaseGen DB Block)
    (st : JavaGen DB) (d : Dict String) (db : DB)
    (b1 b2 b3 t1 t2 t3 : Block) (n1 n2 n3 raw1 raw2 raw3 : String)
    (hprov : base.provideFunction_ = provideFunction env)
    (hd : st.definitions_ = some Dict.empty) (hf : st.functionNames_ = some Dict.empty)
    (hi : st.imports_ = some d) (hdb : st.variableDB_ = some db)
    (hconn1 : api.getInputTargetBlock b1 n1 = some t1)
    (hconn2 : api.getInputTargetBlock b2 n2 = some t2)
    (hconn3 : api.getInputTargetBlock b3 n3 = some t3)
    (hrender1 : ∀ s, base.valueToCode s b1 n1 ORDER_NONE = Except.ok (raw1, s))
    (hrender2 : ∀ s, base.valueToCode s b2 n2 ORDER_NONE = Except.ok (raw2, s))
    (hrender3 : ∀ s, base.valueToCode s b3 n3 ORDER_NONE = Except.ok (raw3, s))
    (hbr1 : convertsAtRuntime env api base st t1 (jsTrim raw1) = true)
    (hbr2 : convertsAtRuntime env api base st t2 (jsTrim raw2) = true)
    (hbr3 : convertsAtRuntime env api base st t3 (jsTrim raw3) = true) :
    ∃ s3,
      toStringCodes env api base st [(b1, n1), (b2, n2), (b3, n3)]
        = Except.ok
          ([(env.getName db "blocklyToString" "generated_function").1 ++ "(" ++ jsTrim raw1 ++ ")",
            (env.getName db "blocklyToString" "generated_function").1 ++ "(" ++ jsTrim raw2 ++ ")",
            (env.getName db "blocklyToString" "generated_function").1 ++ "(" ++ jsTrim raw3 ++ ")"],
            s3) ∧
      s3.definitions_ = some (Dict.empty.set "blocklyToString" (Def.text blocklyToStringBody)) ∧
      ∀ code, finishText env s3 code = some (normalizePreamble
        ((globalDefs env s3 (env.getName db "blocklyToString" "generated_function").2).1
          ++ (blocklyToStringBody ++ "\n\n")) ++ code) := by
  obtain ⟨s1, h1, r1⟩ := toStringCode_first_use env api base st d db b1 t1 n1 raw1 hprov hd hf
    hi hdb hconn1 (hrender1 st) hbr1
  obtain ⟨s2, h2, r2⟩ := toStringCode_later_use env api base st s1 _ _ b2 t2 n2 raw2 hprov r1
    hconn2 (hrender2 s1) hbr2
  obtain ⟨s3, h3, r3⟩ := toStringCode_later_use env api base st s2 _ _ b3 t3 n3 raw3 hprov r2
    hconn3 (hrender3 s2) hbr3
  refine ⟨s3, ?_, r3.1, ?_⟩
  · simp only [toStringCodes, h1, h2, h3, Except.bind]
  · intro code
    rw [finishText_eq env s3 _ code r3.2.2.1, allDefsOf_eq, r3.1, helperLedger_texts]
    simp only [concatTexts, String.append_empty]


/-- C14, witness: the call sites 22, 44 and 46 of `plainBlocks` hold the variables `total`,
`count` and `name`, which `init` types `Object`. -/
theorem toStringCode_helper_once_witness :
    plainBase.provideFunction_ = provideFunction plainEnv ∧
    typedGen.definitions_ = some Dict.empty ∧ typedGen.functionNames_ = some Dict.empty ∧
    typedGen.imports_ = some Dict.empty ∧ typedGen.variableDB_ = some () ∧
    plainBlocks.getInputTargetBlock 22 "TEXT" = some 23 ∧
    plainBlocks.getInputTargetBlock 44 "TEXT" = some 45 ∧
    plainBlocks.getInputTargetBlock 46 "TEXT" = some 47 ∧
    (∀ s, plainBase.valueToCode s 22 "TEXT" ORDER_NONE = Except.ok (" total ", s)) ∧
    (∀ s, plainBase.valueToCode s 44 "TEXT" ORDER_NONE = Except.ok ("count", s)) ∧
    (∀ s, plainBase.valueToCode s 46 "TEXT" ORDER_NONE = Except.ok ("name", s)) ∧
    convertsAtRuntime plainEnv plainBlocks plainBase typedGen 23 (jsTrim " total ") = true ∧
    convertsAtRuntime plainEnv plainBlocks plainBase typedGen 45 (jsTrim "count") = true ∧
    convertsAtRuntime plainEnv plainBlocks plainBase typedGen 47 (jsTrim "name") = true ∧
    ∃ s3,
      toStringCodes plainEnv plainBlocks plainBase typedGen [(22, "TEXT"), (44, "TEXT"), (46, "TEXT")]
        = Except.ok
          ([(plainEnv.getName () "blocklyToString" "generated_function").1
              ++ "(" ++ jsTrim " total " ++ ")",
            (plainEnv.getName () "blocklyToString" "generated_function").1
              ++ "(" ++ jsTrim "count" ++ ")",
            (plainEnv.getName () "blocklyToString" "generated_function").1
              ++ "(" ++ jsTrim "name" ++ ")"],
            s3) ∧
      s3.definitions_ = some (Dict.empty.set "blocklyToString" (Def.text blocklyToStringBody)) ∧
      ∀ code, finishText plainEnv s3 code = some (normalizePreamble
        ((globalDefs plainEnv s3 (plainEnv.getName () "blocklyToString" "generated_function").2).1
          ++ (blocklyToStringBody ++ "\n\n")) ++ code) :=
  ⟨rfl, rfl, rfl, rfl, rfl, rfl, rfl, rfl, fun _ => rfl, fun _ => rfl, fun _ => rfl,
    by decide, by decide, by decide,
    toStringCode_helper_once plainEnv plainBlocks plainBase typedGen Dict.empty ()
      22 44 46 23 45 47 "TEXT" "TEXT" "TEXT" " total " "count" "name"
      rfl rfl rfl rfl rfl rfl rfl rfl (fun _ => rfl) (fun _ => rfl) (fun _ => rfl)
      (by decide) (by decide) (by decide)⟩

/-- C14, counterexample: the call sites 20, 40 and 42 of `plainBlocks` hold the variable
`length`, whose tracked type after `init` is the dynamic wrapper type `Var`; the three calls
return `length.toString()`, the ledger stays empty and `finish` renders no helper. -/
theorem toStringCode_var_registers_no_helper :
    (GetVariableType plainEnv typedGen "length").1 = JSVal.str "Var" ∧
    (match toStringCodes plainEnv plainBlocks plainBase typedGen
        [(20, "TEXT"), (40, "TEXT"), (42, "TEXT")] with
      | Except.ok r =>
        some (r.1, r.2.definitions_.map (fun d => d.keys), finishText plainEnv r.2 "x;\n")
      | Except.error _ => none)
      = some (["length.toString()", "length.toString()", "length.toString()"], some [],
          some "\n\n\nx;\n") := by
  decide

/-- C15: `scrub_(block, code)` returns the comments, the code, the text of the next block and the
postfix, in this order; the postfix and the indent are the values of `POSTFIX` and `EXTRAINDENT`
at entry, the next block is generated with both reset to the empty string, and only its text is
indented, and only when the indent is not empty. -/
theorem scrub_assembly (api : BlockApi Block) (base : BaseGen DB Block)
    (blockToCode : JavaGen DB → Option Block → Except String (String × JavaGen DB))
    (st st1 : JavaGen DB) (block : Block) (code next : String)
    (hnext : blockToCode { st with POSTFIX := "", EXTRAINDENT := "" } (api.nextTarget block)
      = Except.ok (next, st1)) :
    scrub_ api base blockToCode st block code
      = Except.ok (commentCodeOf api base block ++ code
          ++ (if st.EXTRAINDENT != "" then base.prefixLines next st.EXTRAINDENT else next)
          ++ st.POSTFIX, st1) :=
  scrub_eq api base blockToCode st st1 block code next hnext


/-- C15, witness: `scrub_` for block 0 of `plainBlocks` after its generator has set the extra
indent and the postfix. -/
theorem scrub_assembly_witness :
    blockToCode plainBlocks plainBase 2 { braceGen with POSTFIX := "", EXTRAINDENT := "" }
      (plainBlocks.nextTarget 0) = Except.ok ("b();\nc();\n", passGen) ∧
    scrub_ plainBlocks plainBase (blockToCode plainBlocks plainBase 2) braceGen 0 "try \x7b\n"
      = Except.ok (commentCodeOf plainBlocks plainBase 0 ++ "try \x7b\n"
          ++ (if braceGen.EXTRAINDENT != "" then
                plainBase.prefixLines "b();\nc();\n" braceGen.EXTRAINDENT
              else "b();\nc();\n")
          ++ braceGen.POSTFIX, passGen) :=
  ⟨rfl, scrub_assembly plainBlocks plainBase (blockToCode plainBlocks plainBase 2) braceGen
    passGen 0 "try \x7b\n" "b();\nc();\n" rfl⟩

/-- C16 (amended): for a block `a` whose next block is `b`, the text of `scrub_` for `a` is its
comments and code, then the whole text generated from `b`, that is `b` followed by the text `rest`
of all later blocks, indented by the extra indent of `a`, then the postfix of `a`; the generator
of `b` runs with `POSTFIX` and `EXTRAINDENT` reset, so that `b` applies only what it sets. -/
theorem scrub_chain_nesting (api : BlockApi Block) (base : BaseGen DB Block) (fuel : Nat)
    (st stB stC : JavaGen DB) (a b : Block) (codeA codeB rest : String)
    (hnext : api.nextTarget a = some b)
    (hgenB : base.blockGenerator { st with POSTFIX := "", EXTRAINDENT := "" } b
      = Except.ok (codeB, stB))
    (hrest : blockToCode api base fuel { stB with POSTFIX := "", EXTRAINDENT := "" }
      (api.nextTarget b) = Except.ok (rest, stC)) :
    scrub_ api base (blockToCode api base (fuel + 1)) st a codeA
      = Except.ok (commentCodeOf api base a ++ codeA
          ++ indentBy base st.EXTRAINDENT
              (commentCodeOf api base b ++ codeB ++ indentBy base stB.EXTRAINDENT rest
                ++ stB.POSTFIX)
          ++ st.POSTFIX, stC) := by
  apply scrub_eq
  rw [hnext, blockToCode_succ]
  have h1 : base.blockGenerator (resetDecorations st) b = Except.ok (codeB, stB) := hgenB
  rw [h1]
  exact scrub_eq api base _ stB stC b codeB rest hrest


/-- C16, witness: the chain 0, 1, 2 of `plainBlocks`, seen from `scrub_` for block 0. -/
theorem scrub_chain_nesting_witness :
    plainBlocks.nextTarget 0 = some 1 ∧
    plainBase.blockGenerator { braceGen with POSTFIX := "", EXTRAINDENT := "" } 1
      = Except.ok ("b();\n", passGen) ∧
    blockToCode plainBlocks plainBase 1 { passGen with POSTFIX := "", EXTRAINDENT := "" }
      (plainBlocks.nextTarget 1) = Except.ok ("c();\n", passGen) ∧
    scrub_ plainBlocks plainBase (blockToCode plainBlocks plainBase (1 + 1)) braceGen 0
        "try \x7b\n"
      = Except.ok (commentCodeOf plainBlocks plainBase 0 ++ "try \x7b\n"
          ++ indentBy plainBase braceGen.EXTRAINDENT
              (commentCodeOf plainBlocks plainBase 1 ++ "b();\n"
                ++ indentBy plainBase passGen.EXTRAINDENT "c();\n" ++ passGen.POSTFIX)
          ++ braceGen.POSTFIX, passGen) :=
  ⟨rfl, rfl, rfl,
    scrub_chain_nesting plainBlocks plainBase 1 braceGen passGen passGen 0 1 "try \x7b\n"
      "b();\n" "c();\n" rfl rfl rfl⟩

/-- C16, counterexample: in the chain 0, 1, 2 of `plainBlocks` the generator of block 0 sets the
extra indent of two blanks and the postfix of a closing brace.  The line of block 2 is indented
as well, and the postfix follows the text of block 2, not the text of block 1. -/
theorem chain_indent_covers_later_blocks :
    (match blockToCode plainBlocks plainBase 3 passGen (some 0) with
      | Except.ok r => some r.1
      | Except.error _ => none) = some "try \x7b\n  b();\n  c();\n\x7d\n" := by
  decide

/-- C17: the comment text of `scrub_` is empty for a block whose output connection is attached
to a parent; for every other block it is the own comment, prefixed per line and followed by a
newline when there is one, then the prefixed nested comments of the connected value inputs in
input order; inputs of another type contribute nothing. -/
theorem commentCode_shape (api : BlockApi Block) (base : BaseGen DB Block) (block : Block) :
    commentCodeOf api base block =
      if api.outputConnection block = some true then ""
      else
        (if api.getCommentText block = "" then ""
         else base.prefixLines (api.getCommentText block) "// " ++ "\n")
        ++ concatTexts (valueInputComments api base block) := by
  unfold commentCodeOf valueInputComments
  simp only [commentFold_eq]
  cases h : api.outputConnection block with
  | none =>
    simp only [if_true]
    by_cases hc : api.getCommentText block = "" <;> simp [hc]
  | some attached =>
    cases attached with
    | true => simp
    | false =>
      by_cases hc : api.getCommentText block = "" <;> simp [hc]


/-- C18: for every prior generator, `init` returns, and afterwards the ledger, the
helper-function-name table, the class table and the global table are empty, the import set holds
exactly the lines of the default imports `needImports_`, and the registry is a new one or the
prior one after `reset`. -/
theorem init_resets_pass_tables (env : Env DB) (st : JavaGen DB) (ws : Workspace) :
    ∃ st1, init env st ws = Except.ok st1 ∧
      st1.definitions_ = some Dict.empty ∧
      st1.functionNames_ = some Dict.empty ∧
      st1.classes_ = Dict.empty ∧
      st1.globals_ = Dict.empty ∧
      (∃ d, st1.imports_ = some d ∧
        ∀ line, line ∈ d.keys ↔ ∃ lib, lib ∈ st.needImports_ ∧ line = "import " ++ lib ++ ";") ∧
      st1.variableDB_ = some (match st.variableDB_ with
        | none => env.newNames st.RESERVED_WORDS_
        | some db => env.resetNames db) := by
  refine ⟨initState env st ws, init_eq env st ws, rfl, rfl, rfl, rfl, ⟨_, rfl, ?_⟩, rfl⟩
  intro line
  rw [mem_importsAfter_keys, Dict.keys_empty]
  simp


/-- C19, evaluation at the failing input: a first pass over a workspace with the variable
`total`, then `init` for a second pass over a workspace without it; `GetVariableType("total")`
still returns the type `Object` recorded in the first pass, while a fresh generator returns
`float`. -/
theorem variable_type_survives_pass :
    (((init plainEnv (freshGen Unit) ⟨[("total", JSVal.str "Number")]⟩).bind
        (fun s1 => (finish plainEnv s1 "").bind (fun r => init plainEnv r.2 ⟨[]⟩))).toOption.map
      (fun s2 => (GetVariableType plainEnv s2 "total").1)) = some (JSVal.str "Object") ∧
    (GetVariableType plainEnv (freshGen Unit) "total").1 = JSVal.str "float" := by
  decide

/-- C20 (amended): when every block generator returns and the next-link chain from a block ends
within `n` blocks, the walk over `n` blocks returns text. -/
theorem blockToCode_returns (api : BlockApi Block) (base : BaseGen DB Block)
    (hgen : ∀ st block, ∃ r, base.blockGenerator st block = Except.ok r)
    (n : Nat) (start : Option Block) (st : JavaGen DB)
    (hend : chainEndsWithin api n start = true) :
    ∃ text st1, blockToCode api base n st start = Except.ok (text, st1) := by
  induction n generalizing start st with
  | zero =>
    cases start with
    | none => exact ⟨_, _, rfl⟩
    | some b => simp [chainEndsWithin] at hend
  | succ n ih =>
    cases start with
    | none => exact ⟨_, _, rfl⟩
    | some b =>
      rw [blockToCode_succ]
      obtain ⟨r, hr⟩ := hgen st b
      rw [hr]
      have hend2 : chainEndsWithin api n (api.nextTarget b) = true := by
        simpa [chainEndsWithin] using hend
      obtain ⟨next, st1, hn⟩ := ih (api.nextTarget b) (resetDecorations r.2) hend2
      exact ⟨_, _, scrub_eq api base _ r.2 st1 b r.1 next hn⟩

/-- C20, witness: the chain 0, 1, 2 of `plainBlocks` ends within three blocks. -/
theorem blockToCode_returns_witness :
    (∀ st block, ∃ r, plainBase.blockGenerator st block = Except.ok r) ∧
    chainEndsWithin plainBlocks 3 (some 0) = true ∧
    ∃ text st1, blockToCode plainBlocks plainBase 3 passGen (some 0) = Except.ok (text, st1) :=
  have hgen : ∀ st block, ∃ r, plainBase.blockGenerator st block = Except.ok r := by
    intro st block
    simp only [plainBase]
    repeat' split
    all_goals exact ⟨_, rfl⟩
  ⟨hgen, by decide, blockToCode_returns plainBlocks plainBase hgen 3 (some 0) passGen (by decide)⟩

/-- C20, counterexample: the next link of block 5 of `plainBlocks` is block 5 itself; for no
bound on the number of blocks walked does the walk from it return text. -/
theorem blockToCode_cycle_never_returns :
    ¬ ∃ fuel text st1,
      blockToCode plainBlocks plainBase fuel passGen (some 5) = Except.ok (text, st1) := by
  rintro ⟨fuel, text, st1, h⟩
  obtain ⟨e, he⟩ := blockToCode_cycle plainBlocks plainBase 5 (by decide) fuel passGen
  rw [he] at h
  cases h


/-- C21, evaluation at the failing input: the text `public final static void z()` has `static`
as its third word, not among its first two; `split(" ", 3)` keeps three pieces, the definition
goes to slot 0 and `finish` emits it with the statics, before the instance definition `a`. -/
theorem static_third_word_is_static :
    jsSplit "public final static void z()" ' ' 3 = ["public", "final", "static"] ∧
    slotOf (Def.text "public final static void z()") = 0 ∧
    funcsOf thirdWordGen.definitions_ 0 = ["z"] ∧
    funcsOf thirdWordGen.definitions_ 1 = ["a"] ∧
    finishText plainEnv thirdWordGen ""
      = some "public final static void z()\n\nvoid a()\n\n\n" := by
  decide

/-- C22: for every workspace and every name among its variables that is not a property of an
empty array (the host gives `undefined` for it, and it is not `__proto__`), `init` records the
type `Object`, whatever type tag the workspace carries; it records none of `Var`, `Boolean`,
`String`, `LinkedList`, `HashMap`, `double`. -/
theorem init_records_object (env : Env DB) (st : JavaGen DB) (ws : Workspace) (name : String)
    (hname : name ∈ allVariables ws)
    (hhost : env.emptyArray name = JSVal.undefined) (hproto : name ≠ "__proto__") :
    ∃ st1, init env st ws = Except.ok st1 ∧
      st1.variableTypes_.get? name = some "Object" ∧
      (GetVariableType env st1 name).1 = JSVal.str "Object" ∧
      ∀ t, t ∈ ["Var", "Boolean", "String", "LinkedList", "HashMap", "double"] →
        st1.variableTypes_.get? name ≠ some t := by
  have hrec : (initState env st ws).variableTypes_.get? name = some "Object" := by
    show ((allVariables ws).foldl
      (fun vt key => protoSet vt key (mapType env (env.emptyArray key)).1)
      st.variableTypes_).get? name = _
    rw [recordedTypes_get? env _ _ name hproto, if_pos hname, hhost]
    exact congrArg (fun p => some p.1) (mapType_table env).2.2.2.2.2.2.2.2.1
  refine ⟨initState env st ws, init_eq env st ws, hrec, ?_, ?_⟩
  · unfold GetVariableType protoGet
    rw [hrec]
    rfl
  · intro t ht
    rw [hrec]
    intro h
    injection h with h
    subst h
    revert ht
    decide

/-- C22, witness: the variable `total` of source type `Number` in the plain host. -/
theorem init_records_object_witness :
    "total" ∈ allVariables ⟨[("total", JSVal.str "Number")]⟩ ∧
    plainEnv.emptyArray "total" = JSVal.undefined ∧ "total" ≠ "__proto__" ∧
    ∃ st1, init plainEnv (freshGen Unit) ⟨[("total", JSVal.str "Number")]⟩ = Except.ok st1 ∧
      st1.variableTypes_.get? "total" = some "Object" ∧
      (GetVariableType plainEnv st1 "total").1 = JSVal.str "Object" ∧
      ∀ t, t ∈ ["Var", "Boolean", "String", "LinkedList", "HashMap", "double"] →
        st1.variableTypes_.get? "total" ≠ some t :=
  ⟨by decide, by decide, by decide,
    init_records_object plainEnv (freshGen Unit) ⟨[("total", JSVal.str "Number")]⟩ "total"
      (by decide) (by decide) (by decide)⟩

end BlocklyJava
